import Mathlib

/-!
Verification of the cleaning engine in `src/data_cleaner/data_cleaner.py`
(class `DataCleaner`) against its natural-language specification.

The shallow embedding models a pandas `DataFrame` as a list of column names
together with a list of rows, each row being a total assignment of cell
values to column names.  Cell values are numbers (pandas numeric cells,
modelled exactly by `ℚ`), text, timestamps (an integer time coordinate), or
the null marker (`NaN`/`NaT`).  The external parsing routines
`pd.to_datetime` / `pd.to_numeric` are abstracted as an environment of
cell-level parsing functions together with the processing instant
`pd.Timestamp.now()`.  Every cleaning method of the class is translated
statement by statement; quantities that the source only writes to the log
(duplicate counts, outlier counts, row-drop counts, the mode-fallback
warnings) are returned as explicit report values so that the claims about
them can be stated.  `df.dropna(subset=...)`, which raises a `KeyError`
when a listed column is absent, is modelled with an `Option` result
(`none` = the raised error).
-/

namespace DataClean

/-- A cell value: numeric, text, temporal, or the null marker (NaN/NaT). -/
inductive Value where
  | num  (q : ℚ)
  | str  (s : String)
  | date (d : ℤ)
  | null
deriving DecidableEq

def Value.isNull : Value → Bool
  | .null => true
  | _ => false

def Value.isNumOrNull : Value → Bool
  | .num _ => true
  | .null => true
  | _ => false

def Value.isStrOrNull : Value → Bool
  | .str _ => true
  | .null => true
  | _ => false

/-- `cell < b`, as pandas evaluates a comparison on a numeric column:
`False` on the null marker (NaN). -/
def Value.ltNum : Value → ℚ → Bool
  | .num q, b => decide (q < b)
  | _, _ => false

/-- `cell > t`, as pandas evaluates a comparison on a numeric column:
`False` on the null marker (NaN). -/
def Value.gtNum : Value → ℚ → Bool
  | .num q, t => decide (t < q)
  | _, _ => false

/-- Rank of the constructor, used to order cells of distinct kinds. -/
def Value.rank : Value → ℕ
  | .num _ => 0
  | .str _ => 1
  | .date _ => 2
  | .null => 3

/-- Lexicographic comparison of character lists by code point (the order in
which numpy sorts strings). -/
def charsLe : List Char → List Char → Bool
  | [], _ => true
  | _ :: _, [] => false
  | a :: as, b :: bs =>
    if a.toNat < b.toNat then true
    else if b.toNat < a.toNat then false
    else charsLe as bs

/-- Ascending order on cell values: the order numpy uses when pandas sorts the
column of a homogeneous dtype.  Cells of distinct kinds (never compared by the
program on a homogeneous column) are ordered by constructor rank. -/
def vle : Value → Value → Bool
  | .num p, .num q => decide (p ≤ q)
  | .str s, .str t => charsLe s.data t.data
  | .date d, .date e => decide (d ≤ e)
  | a, b => a.rank.ble b.rank

/-- A row of the dataset: a total assignment of cell values to column names. -/
abbrev Row := String → Value

/-- A pandas `DataFrame`: its column names and its rows. -/
structure DataFrame where
  cols : List String
  rows : List Row

/-- `c in df.columns`. -/
def DataFrame.hasCol (df : DataFrame) (c : String) : Bool := df.cols.contains c

/-- The values of column `c`, `df[c]`, in row order. -/
def DataFrame.col (df : DataFrame) (c : String) : List Value :=
  df.rows.map (fun r => r c)

/-- Replace the value of column `c` in one row. -/
def updRow (r : Row) (c : String) (v : Value) : Row :=
  fun c' => if c' = c then v else r c'

/-- Cell-wise rewrite of one column, `df[c] = f(df[c])` /
`df.loc[mask, c] = ...` with a row-wise mask folded into `f`. -/
def DataFrame.mapCol (df : DataFrame) (c : String) (f : Value → Value) : DataFrame :=
  ⟨df.cols, df.rows.map (fun r => updRow r c (f (r c)))⟩

/-- Boolean row selection `df[mask]` / `df.dropna(...)`: keep the rows
satisfying the predicate, in order. -/
def DataFrame.filterRows (df : DataFrame) (p : Row → Bool) : DataFrame :=
  ⟨df.cols, df.rows.filter p⟩

/-- `pd.api.types.is_numeric_dtype(df[c])`: modelled as every cell of the
column being numeric or null (the state of a column after `pd.to_numeric`). -/
def isNumericCol (df : DataFrame) (c : String) : Bool :=
  (df.col c).all Value.isNumOrNull

/-- `pd.api.types.is_string_dtype(df[c])`: modelled as every cell of the
column being text or null. -/
def isStringCol (df : DataFrame) (c : String) : Bool :=
  (df.col c).all Value.isStrOrNull

/-! ### Missing values (`_handle_missing_values`) -/

/-- The non-null values of a column (what `mode()` and `value_counts` see). -/
def nonNullVals (xs : List Value) : List Value :=
  xs.filter (fun v => !v.isNull)

/-- One comparison step of the mode computation: keep the value with the
higher count; on a tied count keep the smaller value in ascending order. -/
def betterMode (nn : List Value) (a v : Value) : Value :=
  if nn.count a < nn.count v then v
  else if nn.count v = nn.count a && vle v a then v
  else a

/-- Models `df[c].mode()[0]` guarded by `mode()` being non-empty: the most
frequent non-null value of the column; among tied counts, the least value in
ascending order (pandas `Series.mode` returns the modes sorted ascending and
`[0]` takes the head).  `none` models the empty mode of an all-null column. -/
def modeVal (xs : List Value) : Option Value :=
  match (nonNullVals xs).dedup with
  | [] => none
  | v0 :: vs => some (vs.foldl (betterMode (nonNullVals xs)) v0)

/-- `df[c] = df[c].fillna(v)`. -/
def fillNullWith (df : DataFrame) (c : String) (v : Value) : DataFrame :=
  df.mapCol c (fun w => if w.isNull then v else w)

/-- Side-channel of `_handle_missing_values`: the logged row-drop count and
the columns for which the empty-mode warning was emitted. -/
structure MissReport where
  dropped : ℕ
  fallback : List String
deriving DecidableEq

/-- The body of the `columns_to_fill_mode` loop for one column: skip an
absent column; fill nulls with the mode when one exists; otherwise fill with
the text `"unknown"` and record the warning. -/
def modeFillCol (p : DataFrame × List String) (c : String) : DataFrame × List String :=
  if p.1.hasCol c then
    match modeVal (p.1.col c) with
    | some m => (fillNullWith p.1 c m, p.2)
    | none => (fillNullWith p.1 c (.str "unknown"), p.2 ++ [c])
  else p

/-- `df.dropna(subset=cs)` together with the logged row count: keeps the rows
that are non-null in every listed column.  pandas raises a `KeyError` when a
listed column is absent; the raised error is modelled by `none`. -/
def dropnaSubset (df : DataFrame) (cs : List String) : Option (DataFrame × ℕ) :=
  if cs.all df.hasCol then
    let d' := df.filterRows (fun r => cs.all (fun c => !(r c).isNull))
    some (d', df.rows.length - d'.rows.length)
  else none

/-- `_handle_missing_values`: mode-fill, then sentinel-fill with `"Unknown"`,
then drop the rows that are null in a listed critical column.  An empty list
models the falsy `None`/`[]` guard of the source; `none` models the
`KeyError` escaping from `dropna`. -/
def handleMissingValues (df : DataFrame)
    (modeCols unknownCols dropCols : List String) :
    Option (DataFrame × MissReport) :=
  let p1 := modeCols.foldl modeFillCol (df, [])
  let d2 := unknownCols.foldl
    (fun d c => if d.hasCol c then fillNullWith d c (.str "Unknown") else d) p1.1
  if dropCols.isEmpty then some (d2, ⟨0, p1.2⟩)
  else
    match dropnaSubset d2 dropCols with
    | some (d3, n) => some (d3, ⟨n, p1.2⟩)
    | none => none

/-! ### Type coercion (`_correct_datatypes`) -/

/-- The parsing collaborators of the cleaner and the processing instant:
`pd.to_datetime(·, errors="coerce")` and `pd.to_numeric(·, errors="coerce")`
at the cell level, and `pd.Timestamp.now()`. -/
structure Env where
  toDate : Value → Option ℤ
  toNum  : Value → Option ℚ
  now    : ℤ

/-- One cell of `pd.to_datetime(df[c], errors="coerce")`: null stays null,
a parsed cell becomes its timestamp, a parse failure becomes null (NaT). -/
def dateCell (env : Env) (v : Value) : Value :=
  if v.isNull then .null
  else
    match env.toDate v with
    | some d => .date d
    | none => .null

/-- One cell of the future-date correction
`df.loc[df[c] > pd.Timestamp.now(), c] = pd.NaT`: a timestamp strictly
later than the processing instant becomes null; everything else is kept. -/
def futureCell (env : Env) (v : Value) : Value :=
  match v with
  | .date d => if env.now < d then .null else .date d
  | v => v

/-- The `date_columns` loop body of `_correct_datatypes` for one column:
skip an absent column, else parse the column and null out future dates. -/
def correctDateCol (env : Env) (df : DataFrame) (c : String) : DataFrame :=
  if df.hasCol c then (df.mapCol c (dateCell env)).mapCol c (futureCell env)
  else df

/-- One cell of `pd.to_numeric(df[c], errors="coerce")`. -/
def numCell (env : Env) (v : Value) : Value :=
  if v.isNull then .null
  else
    match env.toNum v with
    | some q => .num q
    | none => .null

/-- The `numeric_columns` loop body of `_correct_datatypes` for one column. -/
def correctNumCol (env : Env) (df : DataFrame) (c : String) : DataFrame :=
  if df.hasCol c then df.mapCol c (numCell env) else df

/-- `_correct_datatypes`: parse the date columns (nulling future dates),
then parse the numeric columns. -/
def correctDatatypes (env : Env) (df : DataFrame)
    (dateCols numCols : List String) : DataFrame :=
  numCols.foldl (correctNumCol env) (dateCols.foldl (correctDateCol env) df)

/-! ### Duplicates (`_handle_duplicates`) -/

/-- The duplicate-identity tuple of a row over the key columns. -/
def keyOf (ks : List String) (r : Row) : List Value := ks.map r

/-- `df.drop_duplicates(subset=ks)`: keep each row whose key tuple has not
occurred in an earlier row (pandas `keep="first"`; NaN keys compare equal,
as in pandas). -/
def dedupRows (ks : List String) : List Row → List (List Value) → List Row
  | [], _ => []
  | r :: rs, seen =>
    if keyOf ks r ∈ seen then dedupRows ks rs seen
    else r :: dedupRows ks rs (keyOf ks r :: seen)

/-- The key tuples of all rows of a dataset, in row order. -/
def keysOf (ks : List String) (df : DataFrame) : List (List Value) :=
  df.rows.map (keyOf ks)

/-- `_handle_duplicates` with the logged removal count: a no-op unless the
key list is non-empty and every key column is present. -/
def handleDuplicates (df : DataFrame) (ks : List String) : DataFrame × ℕ :=
  if !ks.isEmpty && ks.all df.hasCol then
    let rows' := dedupRows ks df.rows []
    (⟨df.cols, rows'⟩, df.rows.length - rows'.length)
  else (df, 0)

/-! ### Outliers (`_handle_outliers`) -/

/-- The numeric values of a column, NaN excluded — what `Series.quantile`
aggregates over. -/
def ratsOf (xs : List Value) : List ℚ :=
  xs.filterMap (fun v => match v with | .num q => some q | _ => none)

/-- Exact rational addition computed through `mkRat` (the kernel-evaluable
arithmetic of the model; proved equal to `a + b` below). -/
def ratAdd (a b : ℚ) : ℚ := mkRat (a.num * b.den + b.num * a.den) (a.den * b.den)

/-- Exact rational subtraction computed through `mkRat`. -/
def ratSub (a b : ℚ) : ℚ := mkRat (a.num * b.den - b.num * a.den) (a.den * b.den)

/-- Exact rational multiplication computed through `mkRat`. -/
def ratMul (a b : ℚ) : ℚ := mkRat (a.num * b.num) (a.den * b.den)

/-- `Series.quantile(q)` with the default linear interpolation: on the
ascending sorted values `ys` of length `n`, the value at fractional position
`pos = q * (n - 1)`.  The index `⌊pos⌋` is computed as `pos.num.toNat / pos.den`,
which equals the floor at the non-negative positions arising from
`0 ≤ q ≤ 1` (pandas raises outside that range).  `none` models the NaN
result on a column with no numeric values, which makes every subsequent
comparison mask `False`. -/
def quantile (xs : List ℚ) (q : ℚ) : Option ℚ :=
  if xs.isEmpty then none
  else
    let ys := xs.insertionSort (· ≤ ·)
    let n := ys.length
    let pos : ℚ := ratMul q ((n - 1 : ℕ) : ℚ)
    let lo : ℕ := pos.num.toNat / pos.den
    let frac : ℚ := ratSub pos (lo : ℚ)
    let a := ys.getD lo 0
    let b := ys.getD (min (lo + 1) (n - 1)) 0
    some (ratAdd a (ratMul frac (ratSub b a)))

/-- Step 1 of `_handle_outliers` (the `lower_bound` block): count the mask
`df[c] < b` and apply the strategy to the masked positions.  An unrecognized
strategy string counts the mask but changes nothing, as in the source. -/
def lowStep (df : DataFrame) (c : String) (b : ℚ) (strat : String) :
    DataFrame × ℕ :=
  let n := (df.col c).countP (fun v => v.ltNum b)
  if strat = "cap" then (df.mapCol c (fun v => if v.ltNum b then .num b else v), n)
  else if strat = "nan" then (df.mapCol c (fun v => if v.ltNum b then .null else v), n)
  else if strat = "remove" then (df.filterRows (fun r => !(r c).ltNum b), n)
  else (df, n)

/-- Step 2 of `_handle_outliers` (the `upper_quantile` block) once the
threshold `t` is known: count the mask `df[c] > t` and apply the strategy. -/
def highStep (df : DataFrame) (c : String) (t : ℚ) (strat : String) :
    DataFrame × ℕ :=
  let n := (df.col c).countP (fun v => v.gtNum t)
  if strat = "cap" then (df.mapCol c (fun v => if v.gtNum t then .num t else v), n)
  else if strat = "nan" then (df.mapCol c (fun v => if v.gtNum t then .null else v), n)
  else if strat = "remove" then (df.filterRows (fun r => !(r c).gtNum t), n)
  else (df, n)

/-- `_handle_outliers` with the logged `initial_outlier_count`: a no-op on an
absent or non-numeric column; otherwise the lower-bound step followed by the
upper-quantile step, the threshold being the quantile of the column as it
stands after the lower-bound step. -/
def handleOutliers (df : DataFrame) (c : String) (lb uq : Option ℚ)
    (strat : String) : DataFrame × ℕ :=
  if df.hasCol c && isNumericCol df c then
    let p1 := match lb with
      | none => (df, 0)
      | some b => lowStep df c b strat
    let p2 := match uq with
      | none => (p1.1, 0)
      | some q =>
        match quantile (ratsOf (p1.1.col c)) q with
        | none => (p1.1, 0)
        | some t => highStep p1.1 c t strat
    (p2.1, p1.2 + p2.2)
  else (df, 0)

/-! ### Text normalization (`_standardize_text_columns`) -/

/-- The whitespace strip of `str.strip()`. -/
def pyStrip (s : List Char) : List Char :=
  ((s.dropWhile Char.isWhitespace).reverse.dropWhile Char.isWhitespace).reverse

/-- One character of Python `str.title()`: a letter is uppercased when the
previous character was not a letter and lowercased otherwise; every other
character passes through (and resets the word state). -/
def titleChar (prev : Bool) (ch : Char) : Char :=
  if ch.isAlpha then (if prev then ch.toLower else ch.toUpper) else ch

/-- Python `str.title()`: word boundaries are all non-letter characters,
tracked by the previous-character-was-a-letter state. -/
def titleAux : Bool → List Char → List Char
  | _, [] => []
  | prev, ch :: cs => titleChar prev ch :: titleAux ch.isAlpha cs

/-- One cell of `_standardize_text_columns`:
`df[c].astype(str).str.strip()` then `.str.title()`.  `astype(str)` renders
the null marker as the text `"nan"`, which the title-casing turns into
`"Nan"`. -/
def stripTitleCell : Value → Value
  | .str s => .str (String.mk (titleAux false (pyStrip s.data)))
  | .null => .str "Nan"
  | v => v

/-- `_standardize_text_columns`: for each listed column that is present and
textual, strip and title-case every cell. -/
def standardizeTextCols (df : DataFrame) (columns : List String) : DataFrame :=
  columns.foldl
    (fun d c => if d.hasCol c && isStringCol d c then d.mapCol c stripTitleCell else d)
    df

/-! ### The three dataset pipelines -/

/-- The logged side-channel of one pipeline run: duplicate rows removed, rows
dropped for nulls in critical columns, mode-fallback warnings, and the
outlier count of each `_handle_outliers` invocation in order. -/
structure Report where
  dup : ℕ
  dropped : ℕ
  fallback : List String
  outliers : List ℕ
deriving DecidableEq

/-- `clean_transactions_data`. -/
def cleanTransactions (env : Env) (df : DataFrame) : Option (DataFrame × Report) :=
  let p1 := handleDuplicates df
    ["transaction_id", "customer_id", "transaction_timestamps", "order_total", "item_name"]
  let d2 := correctDatatypes env p1.1
    ["transaction_timestamps"] ["order_total", "quantity", "item_price"]
  match handleMissingValues d2 ["payment_method", "order_source"]
      ["item_name", "item_category"] ["order_total", "quantity"] with
  | none => none
  | some (d3, m) =>
    let p4 := handleOutliers d3 "order_total" (some (mkRat 1 10)) (some (mkRat 99 100)) "cap"
    let p5 := handleOutliers p4.1 "quantity" (some 1) (some (mkRat 99 100)) "cap"
    let d6 := standardizeTextCols p5.1
      ["item_name", "item_category", "payment_method", "order_source"]
    some (d6, ⟨p1.2, m.dropped, m.fallback, [p4.2, p5.2]⟩)

/-- `clean_loyalty_data`.  The `df.dropna(subset=["customer_id"])` of the
source is the separate critical drop after the fills. -/
def cleanLoyalty (env : Env) (df : DataFrame) : Option (DataFrame × Report) :=
  let p1 := handleDuplicates df ["loyalty_member_id", "customer_id"]
  let d2 := correctDatatypes env p1.1 [] ["total_loyalty_points"]
  match handleMissingValues d2 [] ["assigned_discount_group(s)"] [] with
  | none => none
  | some (d3, m) =>
    match dropnaSubset d3 ["customer_id"] with
    | none => none
    | some (d4, ndrop) =>
      let p5 := handleOutliers d4 "total_loyalty_points" (some 0) none "cap"
      let d6 := standardizeTextCols p5.1 ["assigned_discount_group(s)"]
      some (d6, ⟨p1.2, ndrop, m.fallback, [p5.2]⟩)

/-- `clean_customer_data`. -/
def cleanCustomers (env : Env) (df : DataFrame) : Option (DataFrame × Report) :=
  let p1 := handleDuplicates df ["customer_id", "email"]
  let d2 := correctDatatypes env p1.1 ["DOB"] []
  match handleMissingValues d2 [] ["email", "phone", "address", "gender"]
      ["customer_id"] with
  | none => none
  | some (d3, m) =>
    let p4 := handleOutliers d3 "age" (some 0) (some (mkRat 999 1000)) "cap"
    let d5 := standardizeTextCols p4.1 ["gender"]
    some (d5, ⟨p1.2, m.dropped, m.fallback, [p4.2]⟩)

/-- A concrete parsing environment for witnesses: already-typed cells parse
to themselves, everything else fails to parse; the processing instant is 0. -/
def defaultEnv : Env where
  toDate := fun v => match v with | .date d => some d | _ => none
  toNum := fun v => match v with | .num q => some q | _ => none
  now := 0

/-! ### Claim-side definitions

Definitions written from the words of the specification, to be compared with
the embedding of the source. -/

/-- Claim-side tie rule for the mode: the most frequent non-null value with
ties broken by first-encountered order in the column, as the specification
asserts. -/
def firstMode (xs : List Value) : Option Value :=
  match nonNullVals xs with
  | [] => none
  | v :: vs =>
    some ((v :: vs).foldl
      (fun acc w =>
        if (nonNullVals xs).count acc < (nonNullVals xs).count w then w else acc) v)

/-- Claim-side title casing: capitalize the first letter of each
whitespace-delimited word and lowercase all its other letters, as the
specification asserts. -/
def wsTitleAux : Bool → List Char → List Char
  | _, [] => []
  | atStart, ch :: cs =>
    if ch.isWhitespace then ch :: wsTitleAux true cs
    else (if atStart then ch.toUpper else ch.toLower) :: wsTitleAux false cs

/-- Claim-side title casing on a string, starting at a word boundary. -/
def wsTitle (s : String) : String := String.mk (wsTitleAux true s.data)

/-! ### Concrete datasets for the witnesses and counterexamples -/

/-- A transactions row holding only an order total and a quantity. -/
def rowT (ot q : Value) : Row := fun c =>
  if c = "order_total" then ot else if c = "quantity" then q else .null

/-- Two transactions rows with order totals 1 and 100 and quantities 1. -/
def dfTx : DataFrame :=
  ⟨["order_total", "quantity"], [rowT (.num 1) (.num 1), rowT (.num 100) (.num 1)]⟩

/-- A loyalty row. -/
def rowL (m cu pts : Value) : Row := fun c =>
  if c = "loyalty_member_id" then m
  else if c = "customer_id" then cu
  else if c = "total_loyalty_points" then pts
  else .null

/-- A loyalty dataset with a negative and a null points cell. -/
def dfLoyNull : DataFrame :=
  ⟨["loyalty_member_id", "customer_id", "total_loyalty_points"],
    [rowL (.num 1) (.num 1) (.num (-5)), rowL (.num 2) (.num 2) .null]⟩

/-- A loyalty dataset with no rows. -/
def dfLoyEmpty : DataFrame :=
  ⟨["loyalty_member_id", "customer_id", "total_loyalty_points"], []⟩

/-- A one-column text dataset whose values are "b", "a", null: the counts of
"a" and "b" are tied and "b" is encountered first. -/
def dfTie : DataFrame :=
  ⟨["pm"], [fun _ => .str "b", fun _ => .str "a", fun _ => .null]⟩

/-- A dataset with an all-null mode-fill column `m` and a null
sentinel-fill column `u`. -/
def dfAllNull : DataFrame := ⟨["m", "u"], [fun _ => .null]⟩

/-- A one-column text dataset holding the single value "milk-bread". -/
def dfHyphen : DataFrame := ⟨["item_name"], [fun _ => .str "milk-bread"]⟩

/-- A one-column text dataset holding the single value "  milk bread ". -/
def dfMilk : DataFrame := ⟨["item_name"], [fun _ => .str "  milk bread "]⟩

/-- A one-column numeric dataset with the values 0 and 10. -/
def dfNum : DataFrame := ⟨["x"], [fun _ => .num 0, fun _ => .num 10]⟩

/-- A one-column numeric dataset with the values -5, 100 and null. -/
def dfNum3 : DataFrame :=
  ⟨["x"], [fun _ => .num (-5), fun _ => .num 100, fun _ => .null]⟩

/-- A one-key dataset with a repeated key value. -/
def dfDup : DataFrame :=
  ⟨["a", "b"],
    [fun c => if c = "a" then .num 1 else .str "first",
     fun c => if c = "a" then .num 1 else .str "second",
     fun c => if c = "a" then .num 2 else .str "third"]⟩

/-- A one-column temporal dataset: a future date, a past date, and an
unparseable text cell (relative to `defaultEnv`, whose instant is 0). -/
def dfDates : DataFrame :=
  ⟨["DOB"], [fun _ => .date 5, fun _ => .date (-3), fun _ => .str "x"]⟩

/-- A one-column dataset used to exercise operations on an absent column. -/
def dfA : DataFrame := ⟨["a"], [fun _ => .num 1]⟩

/-! ### Basic lemmas -/

theorem ratAdd_eq (a b : ℚ) : ratAdd a b = a + b := by
  unfold ratAdd
  rw [Rat.mkRat_eq_div]
  push_cast
  conv_rhs => rw [← Rat.num_div_den a, ← Rat.num_div_den b]
  have ha : ((a.den : ℚ)) ≠ 0 := Nat.cast_ne_zero.mpr (Rat.den_ne_zero a)
  have hb : ((b.den : ℚ)) ≠ 0 := Nat.cast_ne_zero.mpr (Rat.den_ne_zero b)
  field_simp

theorem ratSub_eq (a b : ℚ) : ratSub a b = a - b := by
  unfold ratSub
  rw [Rat.mkRat_eq_div]
  push_cast
  conv_rhs => rw [← Rat.num_div_den a, ← Rat.num_div_den b]
  have ha : ((a.den : ℚ)) ≠ 0 := Nat.cast_ne_zero.mpr (Rat.den_ne_zero a)
  have hb : ((b.den : ℚ)) ≠ 0 := Nat.cast_ne_zero.mpr (Rat.den_ne_zero b)
  field_simp
  ring

theorem ratMul_eq (a b : ℚ) : ratMul a b = a * b := by
  unfold ratMul
  rw [Rat.mkRat_eq_div]
  push_cast
  rw [← div_mul_div_comm, Rat.num_div_den, Rat.num_div_den]

theorem updRow_self (r : Row) (c : String) (v : Value) : updRow r c v c = v := by
  simp [updRow]

theorem updRow_ne (r : Row) {c c' : String} (v : Value) (h : c' ≠ c) :
    updRow r c v c' = r c' := by
  simp [updRow, h]

theorem cols_mapCol (df : DataFrame) (c : String) (f : Value → Value) :
    (df.mapCol c f).cols = df.cols := rfl

theorem cols_filterRows (df : DataFrame) (p : Row → Bool) :
    (df.filterRows p).cols = df.cols := rfl

theorem hasCol_mapCol (df : DataFrame) (c c' : String) (f : Value → Value) :
    (df.mapCol c f).hasCol c' = df.hasCol c' := rfl

theorem hasCol_filterRows (df : DataFrame) (p : Row → Bool) (c : String) :
    (df.filterRows p).hasCol c = df.hasCol c := rfl

theorem col_mapCol_self (df : DataFrame) (c : String) (f : Value → Value) :
    (df.mapCol c f).col c = (df.col c).map f := by
  simp [DataFrame.mapCol, DataFrame.col, updRow_self]

theorem col_mapCol_ne (df : DataFrame) {c c' : String} (f : Value → Value)
    (h : c' ≠ c) : (df.mapCol c f).col c' = df.col c' := by
  simp [DataFrame.mapCol, DataFrame.col, updRow_ne _ _ h]

theorem col_filterRows_sublist (df : DataFrame) (p : Row → Bool) (c : String) :
    ((df.filterRows p).col c).Sublist (df.col c) := by
  simpa [DataFrame.col, DataFrame.filterRows] using
    ((List.filter_sublist df.rows).map fun r => r c)

theorem rows_filterRows_sublist (df : DataFrame) (p : Row → Bool) :
    (df.filterRows p).rows.Sublist df.rows :=
  List.filter_sublist df.rows

/-! ### Lemmas about duplicate elimination -/

theorem dedupRows_sublist (ks : List String) :
    ∀ (rows : List Row) (seen : List (List Value)),
      (dedupRows ks rows seen).Sublist rows
  | [], _ => List.Sublist.refl _
  | r :: rs, seen => by
    rw [dedupRows]
    split
    · exact (dedupRows_sublist ks rs seen).cons r
    · exact (dedupRows_sublist ks rs _).cons₂ r

theorem dedupRows_spec (ks : List String) :
    ∀ (rows : List Row) (seen : List (List Value)) (r' : Row),
      r' ∈ dedupRows ks rows seen →
        keyOf ks r' ∉ seen ∧
          rows.find? (fun r => decide (keyOf ks r = keyOf ks r')) = some r'
  | [], _, _, h => absurd h (List.not_mem_nil _)
  | r :: rs, seen, r', h => by
    rw [dedupRows] at h
    by_cases hseen : keyOf ks r ∈ seen
    · rw [if_pos hseen] at h
      obtain ⟨hnot, hfind⟩ := dedupRows_spec ks rs seen r' h
      have hne : keyOf ks r ≠ keyOf ks r' := fun he => hnot (he ▸ hseen)
      refine ⟨hnot, ?_⟩
      rw [List.find?_cons]
      simp only [decide_eq_false hne]
      exact hfind
    · rw [if_neg hseen] at h
      rcases List.mem_cons.mp h with he | ht
      · subst he
        refine ⟨hseen, ?_⟩
        rw [List.find?_cons]
        simp
      · obtain ⟨hnot, hfind⟩ := dedupRows_spec ks rs (keyOf ks r :: seen) r' ht
        have hne : keyOf ks r ≠ keyOf ks r' := by
          intro he
          exact hnot (he ▸ List.mem_cons_self _ _)
        refine ⟨fun hm => hnot (List.mem_cons_of_mem _ hm), ?_⟩
        rw [List.find?_cons]
        simp only [decide_eq_false hne]
        exact hfind

theorem dedupRows_keys_nodup (ks : List String) :
    ∀ (rows : List Row) (seen : List (List Value)),
      ((dedupRows ks rows seen).map (keyOf ks)).Nodup
  | [], _ => List.nodup_nil
  | r :: rs, seen => by
    rw [dedupRows]
    split
    · exact dedupRows_keys_nodup ks rs seen
    · rw [List.map_cons, List.nodup_cons]
      refine ⟨?_, dedupRows_keys_nodup ks rs _⟩
      intro hmem
      obtain ⟨r', hr', he⟩ := List.mem_map.mp hmem
      exact (dedupRows_spec ks rs _ r' hr').1 (he ▸ List.mem_cons_self _ _)

theorem dedupRows_of_nodup (ks : List String) :
    ∀ (rows : List Row) (seen : List (List Value)),
      (rows.map (keyOf ks)).Nodup → (∀ r ∈ rows, keyOf ks r ∉ seen) →
      dedupRows ks rows seen = rows
  | [], _, _, _ => rfl
  | r :: rs, seen, hnd, hdisj => by
    rw [dedupRows, if_neg (hdisj r (List.mem_cons_self _ _))]
    rw [List.map_cons, List.nodup_cons] at hnd
    refine congrArg (r :: ·) (dedupRows_of_nodup ks rs _ hnd.2 ?_)
    intro r'' hr''
    rw [List.mem_cons]
    rintro (he | hm)
    · exact hnd.1 (he ▸ List.mem_map_of_mem (keyOf ks) hr'')
    · exact hdisj r'' (List.mem_cons_of_mem _ hr'') hm

theorem cols_handleDuplicates (df : DataFrame) (ks : List String) :
    (handleDuplicates df ks).1.cols = df.cols := by
  unfold handleDuplicates
  split <;> rfl

theorem rows_handleDuplicates_sublist (df : DataFrame) (ks : List String) :
    (handleDuplicates df ks).1.rows.Sublist df.rows := by
  unfold handleDuplicates
  split
  · exact dedupRows_sublist ks df.rows []
  · exact List.Sublist.refl _

theorem handleDuplicates_keys_nodup (df : DataFrame) (ks : List String)
    (h : (!ks.isEmpty && ks.all df.hasCol) = true) :
    (keysOf ks (handleDuplicates df ks).1).Nodup := by
  unfold handleDuplicates
  rw [if_pos h]
  exact dedupRows_keys_nodup ks df.rows []

theorem handleDuplicates_count_zero (df : DataFrame) (ks : List String)
    (h : (keysOf ks df).Nodup) : (handleDuplicates df ks).2 = 0 := by
  unfold handleDuplicates
  split
  · have he : dedupRows ks df.rows [] = df.rows :=
      dedupRows_of_nodup ks df.rows [] h (fun r _ => List.not_mem_nil _)
    simp [he]
  · rfl

theorem keyOf_updRow {ks : List String} {c : String} (r : Row) (v : Value)
    (h : c ∉ ks) : keyOf ks (updRow r c v) = keyOf ks r := by
  unfold keyOf
  refine List.map_congr_left ?_
  intro k hk
  exact updRow_ne r v (fun he => h (he ▸ hk))

theorem keysOf_mapCol (df : DataFrame) {ks : List String} {c : String}
    (f : Value → Value) (h : c ∉ ks) :
    keysOf ks (df.mapCol c f) = keysOf ks df := by
  unfold keysOf DataFrame.mapCol
  simp only [List.map_map]
  refine List.map_congr_left ?_
  intro r _
  exact keyOf_updRow r _ h

theorem keysOf_filterRows_sublist (df : DataFrame) (ks : List String)
    (p : Row → Bool) :
    (keysOf ks (df.filterRows p)).Sublist (keysOf ks df) :=
  (List.filter_sublist df.rows).map (keyOf ks)

/-! ### Lemmas about the quantile -/

theorem quantile_isSome (xs : List ℚ) (q : ℚ) (h : xs ≠ []) :
    ∃ t, quantile xs q = some t := by
  unfold quantile
  rw [if_neg (by simpa using h)]
  exact ⟨_, rfl⟩

theorem natFloorDiv_le (p : ℚ) (hp : 0 ≤ p) :
    ((p.num.toNat / p.den : ℕ) : ℚ) ≤ p := by
  have hnum : (p.num.toNat : ℤ) = p.num := Int.toNat_of_nonneg (Rat.num_nonneg.mpr hp)
  calc ((p.num.toNat / p.den : ℕ) : ℚ) ≤ (p.num.toNat : ℚ) / (p.den : ℚ) :=
        Nat.cast_div_le
    _ = (p.num : ℚ) / (p.den : ℚ) := by
        congr 1
        exact_mod_cast congrArg (fun z : ℤ => (z : ℚ)) hnum
    _ = p := Rat.num_div_den p

theorem quantile_ge (xs : List ℚ) (q lb t : ℚ) (hq0 : 0 ≤ q) (hq1 : q ≤ 1)
    (hall : ∀ y ∈ xs, lb ≤ y) (ht : quantile xs q = some t) : lb ≤ t := by
  have hne : xs ≠ [] := by
    intro he
    rw [he] at ht
    simp [quantile] at ht
  unfold quantile at ht
  rw [if_neg (by simpa using hne)] at ht
  simp only [Option.some.injEq] at ht
  set ys := xs.insertionSort (· ≤ ·) with hys
  have hyslen : ys.length = xs.length := List.length_insertionSort _ _
  have hn1 : 1 ≤ ys.length := by
    rw [hyslen]
    exact List.length_pos.mpr hne
  have hally : ∀ y ∈ ys, lb ≤ y := by
    intro y hy
    exact hall y ((List.perm_insertionSort _ xs).mem_iff.mp hy)
  have hsorted : ys.Sorted (· ≤ ·) := List.sorted_insertionSort _ xs
  set pos : ℚ := ratMul q ((ys.length - 1 : ℕ) : ℚ) with hposdef
  have hpos : pos = q * ((ys.length - 1 : ℕ) : ℚ) := ratMul_eq _ _
  have hpos0 : 0 ≤ pos := by
    rw [hpos]
    exact mul_nonneg hq0 (Nat.cast_nonneg _)
  have hposle : pos ≤ ((ys.length - 1 : ℕ) : ℚ) := by
    rw [hpos]
    exact mul_le_of_le_one_left (Nat.cast_nonneg _) hq1
  set lo : ℕ := pos.num.toNat / pos.den with hlodef
  have hlole : (lo : ℚ) ≤ pos := natFloorDiv_le pos hpos0
  have hlon1 : lo ≤ ys.length - 1 :=
    Nat.cast_le.mp (le_trans hlole hposle)
  have hlolt : lo < ys.length :=
    lt_of_le_of_lt hlon1 (Nat.sub_lt (lt_of_lt_of_le one_pos hn1) one_pos)
  have hbn : min (lo + 1) (ys.length - 1) < ys.length :=
    lt_of_le_of_lt (min_le_right _ _) (Nat.sub_lt (lt_of_lt_of_le one_pos hn1) one_pos)
  have hlolemin : lo ≤ min (lo + 1) (ys.length - 1) :=
    le_min (Nat.le_succ lo) hlon1
  have hget : ∀ (i : ℕ) (hi : i < ys.length), ys.getD i 0 = ys.get ⟨i, hi⟩ := by
    intro i hi
    simp [List.getD_eq_getElem?_getD, List.getElem?_eq_getElem hi]
  have h629 : ys.getD lo 0 ≤ ys.getD (min (lo + 1) (ys.length - 1)) 0 := by
    rw [hget lo hlolt, hget _ hbn]
    exact hsorted.rel_get_of_le hlolemin
  have hamem : ys.getD lo 0 ∈ ys := by
    rw [hget lo hlolt]
    exact ys.get_mem lo hlolt
  have hfrac : 0 ≤ pos - (lo : ℚ) := sub_nonneg.mpr hlole
  rw [← ht]
  simp only [ratAdd_eq, ratMul_eq, ratSub_eq]
  have hprod : 0 ≤ (pos - (lo : ℚ)) * (ys.getD (min (lo + 1) (ys.length - 1)) 0 - ys.getD lo 0) :=
    mul_nonneg hfrac (sub_nonneg.mpr h629)
  calc lb ≤ ys.getD lo 0 := hally _ hamem
    _ ≤ ys.getD lo 0 + (pos - (lo : ℚ)) * (ys.getD (min (lo + 1) (ys.length - 1)) 0 - ys.getD lo 0) :=
        le_add_of_nonneg_right hprod

/-! ### Lemmas about the value order and the mode -/

theorem charsLe_cons_iff (a b : Char) (as bs : List Char) :
    charsLe (a :: as) (b :: bs) = true ↔
      a.toNat < b.toNat ∨ (a.toNat = b.toNat ∧ charsLe as bs = true) := by
  rw [charsLe]
  rcases lt_trichotomy a.toNat b.toNat with h | h | h
  · simp [h]
  · simp [h, lt_irrefl]
  · simp [h, asymm h, (ne_of_gt h).symm, not_lt_of_gt h]
    intro he
    exact absurd (he ▸ h) (lt_irrefl _)

theorem charsLe_refl : ∀ l : List Char, charsLe l l = true
  | [] => rfl
  | a :: as => by
    rw [charsLe_cons_iff]
    exact Or.inr ⟨rfl, charsLe_refl as⟩

theorem charsLe_total : ∀ l₁ l₂ : List Char,
    charsLe l₁ l₂ = true ∨ charsLe l₂ l₁ = true
  | [], _ => Or.inl rfl
  | _ :: _, [] => Or.inr rfl
  | a :: as, b :: bs => by
    rw [charsLe_cons_iff, charsLe_cons_iff]
    rcases lt_trichotomy a.toNat b.toNat with h | h | h
    · exact Or.inl (Or.inl h)
    · rcases charsLe_total as bs with ht | ht
      · exact Or.inl (Or.inr ⟨h, ht⟩)
      · exact Or.inr (Or.inr ⟨h.symm, ht⟩)
    · exact Or.inr (Or.inl h)

theorem charsLe_trans : ∀ l₁ l₂ l₃ : List Char,
    charsLe l₁ l₂ = true → charsLe l₂ l₃ = true → charsLe l₁ l₃ = true
  | [], _, _, _, _ => rfl
  | _ :: _, [], _, h12, _ => by simp [charsLe] at h12
  | _ :: _, _ :: _, [], _, h23 => by simp [charsLe] at h23
  | a :: as, b :: bs, c :: cs, h12, h23 => by
    rw [charsLe_cons_iff] at h12 h23 ⊢
    rcases h12 with hab | ⟨hab, hab'⟩
    · rcases h23 with hbc | ⟨hbc, _⟩
      · exact Or.inl (lt_trans hab hbc)
      · exact Or.inl (hbc ▸ hab)
    · rcases h23 with hbc | ⟨hbc, hbc'⟩
      · exact Or.inl (hab ▸ hbc)
      · exact Or.inr ⟨hab.trans hbc, charsLe_trans as bs cs hab' hbc'⟩

theorem vle_refl (v : Value) : vle v v = true := by
  cases v with
  | num q => simp [vle]
  | str s => exact charsLe_refl s.data
  | date d => simp [vle]
  | null => rfl

theorem vle_total (a b : Value) : vle a b = true ∨ vle b a = true := by
  cases a <;> cases b <;>
    first
    | exact Or.inl rfl
    | exact Or.inr rfl
    | exact charsLe_total _ _
    | (simp only [vle, decide_eq_true_eq]; exact le_total _ _)

theorem vle_trans (a b c : Value) (hab : vle a b = true) (hbc : vle b c = true) :
    vle a c = true := by
  cases a <;> cases b <;> cases c <;>
    first
    | rfl
    | exact Bool.noConfusion hab
    | exact Bool.noConfusion hbc
    | exact charsLe_trans _ _ _ hab hbc
    | (simp only [vle, decide_eq_true_eq] at hab hbc ⊢; exact le_trans hab hbc)

theorem betterMode_cases (nn : List Value) (a v : Value) :
    betterMode nn a v = a ∨ betterMode nn a v = v := by
  unfold betterMode
  split
  · exact Or.inr rfl
  · split
    · exact Or.inr rfl
    · exact Or.inl rfl

theorem betterMode_beats_left (nn : List Value) (a v : Value) :
    nn.count a < nn.count (betterMode nn a v) ∨
      (nn.count a = nn.count (betterMode nn a v) ∧
        vle (betterMode nn a v) a = true) := by
  unfold betterMode
  split
  · next h => exact Or.inl h
  · next h =>
    split
    · next h' =>
      rw [Bool.and_eq_true, decide_eq_true_eq] at h'
      exact Or.inr ⟨h'.1.symm, h'.2⟩
    · exact Or.inr ⟨rfl, vle_refl a⟩

theorem betterMode_beats_right (nn : List Value) (a v : Value) :
    nn.count v < nn.count (betterMode nn a v) ∨
      (nn.count v = nn.count (betterMode nn a v) ∧
        vle (betterMode nn a v) v = true) := by
  unfold betterMode
  split
  · exact Or.inr ⟨rfl, vle_refl v⟩
  · next h =>
    split
    · exact Or.inr ⟨rfl, vle_refl v⟩
    · next h' =>
      rcases lt_or_eq_of_le (not_lt.mp h) with hlt | heq
      · exact Or.inl hlt
      · rw [Bool.and_eq_true, decide_eq_true_eq] at h'
        push_neg at h'
        rcases vle_total a v with hav | hva
        · exact Or.inr ⟨heq, hav⟩
        · exact absurd hva (h' heq)

theorem beats_trans (nn : List Value) (x y z : Value)
    (hxy : nn.count y < nn.count x ∨ (nn.count y = nn.count x ∧ vle x y = true))
    (hyz : nn.count z < nn.count y ∨ (nn.count z = nn.count y ∧ vle y z = true)) :
    nn.count z < nn.count x ∨ (nn.count z = nn.count x ∧ vle x z = true) := by
  rcases hxy with hxy | ⟨hxy, hxy'⟩
  · rcases hyz with hyz | ⟨hyz, _⟩
    · exact Or.inl (lt_trans hyz hxy)
    · exact Or.inl (hyz ▸ hxy)
  · rcases hyz with hyz | ⟨hyz, hyz'⟩
    · exact Or.inl (hxy ▸ hyz)
    · exact Or.inr ⟨hyz.trans hxy, vle_trans x y z hxy' hyz'⟩

theorem foldl_betterMode_mem (nn : List Value) :
    ∀ (l : List Value) (a : Value),
      l.foldl (betterMode nn) a = a ∨ l.foldl (betterMode nn) a ∈ l
  | [], _ => Or.inl rfl
  | b :: l, a => by
    rw [List.foldl_cons]
    rcases foldl_betterMode_mem nn l (betterMode nn a b) with h | h
    · rcases betterMode_cases nn a b with hc | hc
      · exact Or.inl (h.trans hc)
      · refine Or.inr ?_
        rw [h.trans hc]
        exact List.mem_cons_self b l
    · exact Or.inr (List.mem_cons_of_mem b h)

theorem foldl_betterMode_beats (nn : List Value) :
    ∀ (l : List Value) (a v : Value), v = a ∨ v ∈ l →
      nn.count v < nn.count (l.foldl (betterMode nn) a) ∨
        (nn.count v = nn.count (l.foldl (betterMode nn) a) ∧
          vle (l.foldl (betterMode nn) a) v = true)
  | [], a, v, hv => by
    rcases hv with hv | hv
    · subst hv
      exact Or.inr ⟨rfl, vle_refl v⟩
    · exact absurd hv (List.not_mem_nil v)
  | b :: l, a, v, hv => by
    rw [List.foldl_cons]
    have hself : nn.count (betterMode nn a b) <
          nn.count (l.foldl (betterMode nn) (betterMode nn a b)) ∨
        (nn.count (betterMode nn a b) =
            nn.count (l.foldl (betterMode nn) (betterMode nn a b)) ∧
          vle (l.foldl (betterMode nn) (betterMode nn a b)) (betterMode nn a b) = true) :=
      foldl_betterMode_beats nn l (betterMode nn a b) (betterMode nn a b) (Or.inl rfl)
    rcases hv with hv | hv
    · subst hv
      exact beats_trans nn _ _ _ hself (betterMode_beats_left nn v b)
    · rcases List.mem_cons.mp hv with hv | hv
      · subst hv
        exact beats_trans nn _ _ _ hself (betterMode_beats_right nn a v)
      · exact foldl_betterMode_beats nn l (betterMode nn a b) v (Or.inr hv)

theorem modeVal_spec (xs : List Value) (m : Value) (h : modeVal xs = some m) :
    m ∈ nonNullVals xs ∧
      (∀ v ∈ nonNullVals xs,
        (nonNullVals xs).count v ≤ (nonNullVals xs).count m) ∧
      (∀ v ∈ nonNullVals xs,
        (nonNullVals xs).count v = (nonNullVals xs).count m → vle m v = true) := by
  unfold modeVal at h
  cases hd : (nonNullVals xs).dedup with
  | nil => rw [hd] at h; simp at h
  | cons v0 vs =>
    rw [hd] at h
    simp only [Option.some.injEq] at h
    subst h
    have hmem : vs.foldl (betterMode (nonNullVals xs)) v0 ∈ nonNullVals xs := by
      rcases foldl_betterMode_mem (nonNullVals xs) vs v0 with he | he
      · rw [he, ← List.mem_dedup, hd]
        exact List.mem_cons_self _ _
      · rw [← List.mem_dedup, hd]
        exact List.mem_cons_of_mem _ he
    refine ⟨hmem, ?_, ?_⟩
    · intro v hv
      have hvd : v = v0 ∨ v ∈ vs := by
        have : v ∈ (nonNullVals xs).dedup := List.mem_dedup.mpr hv
        rw [hd] at this
        exact List.mem_cons.mp this
      rcases foldl_betterMode_beats (nonNullVals xs) vs v0 v hvd with hb | ⟨hb, _⟩
      · exact le_of_lt hb
      · exact le_of_eq hb
    · intro v hv hcount
      have hvd : v = v0 ∨ v ∈ vs := by
        have : v ∈ (nonNullVals xs).dedup := List.mem_dedup.mpr hv
        rw [hd] at this
        exact List.mem_cons.mp this
      rcases foldl_betterMode_beats (nonNullVals xs) vs v0 v hvd with hb | ⟨_, hb⟩
      · exact absurd hcount (ne_of_lt hb)
      · exact hb

/-! ### Frame lemmas for the cleaning steps -/

theorem foldl_pres {β α : Type} (P : β → Prop) (step : β → α → β)
    (h : ∀ d a, P d → P (step d a)) :
    ∀ (l : List α) (d : β), P d → P (l.foldl step d)
  | [], _, hP => hP
  | a :: l, d, hP => foldl_pres P step h l _ (h d a hP)

theorem cols_correctDateCol (env : Env) (df : DataFrame) (c : String) :
    (correctDateCol env df c).cols = df.cols := by
  unfold correctDateCol
  split <;> rfl

theorem cols_correctNumCol (env : Env) (df : DataFrame) (c : String) :
    (correctNumCol env df c).cols = df.cols := by
  unfold correctNumCol
  split <;> rfl

theorem cols_correctDatatypes (env : Env) (df : DataFrame)
    (dcols ncols : List String) :
    (correctDatatypes env df dcols ncols).cols = df.cols := by
  unfold correctDatatypes
  have h1 : (dcols.foldl (correctDateCol env) df).cols = df.cols :=
    foldl_pres (fun d => d.cols = df.cols) (correctDateCol env)
      (fun d a hd => (cols_correctDateCol env d a).trans hd) dcols df rfl
  exact foldl_pres (fun d => d.cols = df.cols) (correctNumCol env)
    (fun d a hd => (cols_correctNumCol env d a).trans hd) ncols _ h1

theorem cols_fillNullWith (df : DataFrame) (c : String) (v : Value) :
    (fillNullWith df c v).cols = df.cols := rfl

theorem cols_modeFillCol (p : DataFrame × List String) (c : String) :
    (modeFillCol p c).1.cols = p.1.cols := by
  unfold modeFillCol
  split
  · split <;> rfl
  · rfl

theorem cols_dropnaSubset (df : DataFrame) (cs : List String)
    (d' : DataFrame) (n : ℕ) (h : dropnaSubset df cs = some (d', n)) :
    d'.cols = df.cols := by
  unfold dropnaSubset at h
  split at h
  · simp only [Option.some.injEq, Prod.mk.injEq] at h
    rw [← h.1]
    rfl
  · exact absurd h (by simp)

theorem cols_handleMissingValues (df : DataFrame) (m u dr : List String)
    (d' : DataFrame) (rep : MissReport)
    (h : handleMissingValues df m u dr = some (d', rep)) : d'.cols = df.cols := by
  simp only [handleMissingValues] at h
  have hm : (m.foldl modeFillCol (df, [])).1.cols = df.cols :=
    foldl_pres (fun p : DataFrame × List String => p.1.cols = df.cols) modeFillCol
      (fun p a hp => (cols_modeFillCol p a).trans hp) m (df, []) rfl
  have hu : (u.foldl
      (fun d c => if d.hasCol c then fillNullWith d c (.str "Unknown") else d)
      (m.foldl modeFillCol (df, [])).1).cols = df.cols := by
    refine foldl_pres (fun d : DataFrame => d.cols = df.cols) _ ?_ u _ hm
    intro d a hd
    dsimp only
    split
    · exact hd
    · exact hd
  split at h
  · simp only [Option.some.injEq, Prod.mk.injEq] at h
    rw [← h.1]
    exact hu
  · split at h
    · next d3 n heq =>
      simp only [Option.some.injEq, Prod.mk.injEq] at h
      rw [← h.1]
      exact (cols_dropnaSubset _ _ _ _ heq).trans hu
    · exact absurd h (by simp)

theorem cols_lowStep (df : DataFrame) (c : String) (b : ℚ) (s : String) :
    (lowStep df c b s).1.cols = df.cols := by
  unfold lowStep
  split
  · rfl
  · split
    · rfl
    · split <;> rfl

theorem cols_highStep (df : DataFrame) (c : String) (t : ℚ) (s : String) :
    (highStep df c t s).1.cols = df.cols := by
  unfold highStep
  split
  · rfl
  · split
    · rfl
    · split <;> rfl

theorem cols_handleOutliers (df : DataFrame) (c : String) (lb uq : Option ℚ)
    (s : String) : (handleOutliers df c lb uq s).1.cols = df.cols := by
  unfold handleOutliers
  split
  · cases lb with
    | none =>
      cases uq with
      | none => rfl
      | some q =>
        dsimp only
        split
        · rfl
        · exact cols_highStep _ _ _ _
    | some b =>
      cases uq with
      | none => exact cols_lowStep _ _ _ _
      | some q =>
        dsimp only
        split
        · exact cols_lowStep _ _ _ _
        · exact (cols_highStep _ _ _ _).trans (cols_lowStep _ _ _ _)
  · rfl

theorem cols_standardizeTextCols (df : DataFrame) (columns : List String) :
    (standardizeTextCols df columns).cols = df.cols := by
  unfold standardizeTextCols
  refine foldl_pres (fun d : DataFrame => d.cols = df.cols) _ ?_ columns df rfl
  intro d a hd
  dsimp only
  split
  · exact hd
  · exact hd

theorem hasCol_eq_of_cols {d df : DataFrame} (c : String) (h : d.cols = df.cols) :
    d.hasCol c = df.hasCol c := by
  unfold DataFrame.hasCol
  rw [h]

theorem foldl_pres_mem {β α : Type} (P : β → Prop) (step : β → α → β) :
    ∀ (l : List α), (∀ d a, a ∈ l → P d → P (step d a)) →
      ∀ d, P d → P (l.foldl step d)
  | [], _, _, hP => hP
  | a :: l, h, d, hP =>
    foldl_pres_mem P step l (fun d' a' ha' => h d' a' (List.mem_cons_of_mem _ ha'))
      _ (h d a (List.mem_cons_self _ _) hP)

theorem sublist_of_eq {α : Type} {l₁ l₂ : List α} (h : l₁ = l₂) : l₁.Sublist l₂ :=
  h ▸ List.Sublist.refl _

theorem col_correctDateCol_ne (env : Env) (df : DataFrame) {c c' : String}
    (h : c' ≠ c) : (correctDateCol env df c).col c' = df.col c' := by
  unfold correctDateCol
  split
  · rw [col_mapCol_ne _ _ h, col_mapCol_ne _ _ h]
  · rfl

theorem col_correctNumCol_ne (env : Env) (df : DataFrame) {c c' : String}
    (h : c' ≠ c) : (correctNumCol env df c).col c' = df.col c' := by
  unfold correctNumCol
  split
  · rw [col_mapCol_ne _ _ h]
  · rfl

theorem col_correctNumCol_self (env : Env) (df : DataFrame) (c : String)
    (h : df.hasCol c = true) :
    (correctNumCol env df c).col c = (df.col c).map (numCell env) := by
  unfold correctNumCol
  rw [if_pos h, col_mapCol_self]

theorem col_correctDatatypes_ne (env : Env) (df : DataFrame)
    (dcols ncols : List String) {c : String} (hd : c ∉ dcols) (hn : c ∉ ncols) :
    (correctDatatypes env df dcols ncols).col c = df.col c := by
  unfold correctDatatypes
  have h1 : (dcols.foldl (correctDateCol env) df).col c = df.col c :=
    foldl_pres_mem (fun d => d.col c = df.col c) (correctDateCol env) dcols
      (fun d a ha hdp =>
        (col_correctDateCol_ne env d (fun he => hd (by rw [he]; exact ha))).trans hdp) df rfl
  exact foldl_pres_mem (fun d => d.col c = df.col c) (correctNumCol env) ncols
    (fun d a ha hdp =>
      (col_correctNumCol_ne env d (fun he => hn (by rw [he]; exact ha))).trans hdp) _ h1

theorem col_fillNullWith_ne (df : DataFrame) {c c' : String} (v : Value)
    (h : c' ≠ c) : (fillNullWith df c v).col c' = df.col c' :=
  col_mapCol_ne _ _ h

theorem col_modeFillCol_ne (p : DataFrame × List String) {x c : String}
    (h : c ≠ x) : (modeFillCol p x).1.col c = p.1.col c := by
  unfold modeFillCol
  split
  · split
    · exact col_fillNullWith_ne _ _ h
    · exact col_fillNullWith_ne _ _ h
  · rfl

theorem col_dropnaSubset (df : DataFrame) (cs : List String) (d' : DataFrame)
    (n : ℕ) (c : String) (h : dropnaSubset df cs = some (d', n)) :
    (d'.col c).Sublist (df.col c) := by
  unfold dropnaSubset at h
  split at h
  · simp only [Option.some.injEq, Prod.mk.injEq] at h
    rw [← h.1]
    exact col_filterRows_sublist df _ c
  · exact absurd h (by simp)

theorem col_handleMissingValues_sub (df : DataFrame) (m u dr : List String)
    (d' : DataFrame) (rep : MissReport) {c : String} (hm : c ∉ m) (hu : c ∉ u)
    (h : handleMissingValues df m u dr = some (d', rep)) :
    (d'.col c).Sublist (df.col c) := by
  simp only [handleMissingValues] at h
  have h1 : (m.foldl modeFillCol (df, [])).1.col c = df.col c :=
    foldl_pres_mem (fun p : DataFrame × List String => p.1.col c = df.col c)
      modeFillCol m
      (fun p a ha hp => (col_modeFillCol_ne p (fun he => hm (by rw [he]; exact ha))).trans hp)
      (df, []) rfl
  have h2 : (u.foldl
      (fun d x => if d.hasCol x then fillNullWith d x (.str "Unknown") else d)
      (m.foldl modeFillCol (df, [])).1).col c = df.col c := by
    refine foldl_pres_mem (fun d : DataFrame => d.col c = df.col c) _ u ?_ _ h1
    intro d a ha hdp
    dsimp only
    split
    · exact (col_fillNullWith_ne d _ (fun he => hu (by rw [he]; exact ha))).trans hdp
    · exact hdp
  split at h
  · simp only [Option.some.injEq, Prod.mk.injEq] at h
    rw [← h.1, h2]
  · split at h
    · next d3 n heq =>
      simp only [Option.some.injEq, Prod.mk.injEq] at h
      rw [← h.1]
      exact h2 ▸ col_dropnaSubset _ _ _ _ c heq
    · exact absurd h (by simp)

theorem col_lowStep_ne (df : DataFrame) {c c' : String} (b : ℚ) (s : String)
    (h : c' ≠ c) : ((lowStep df c b s).1.col c').Sublist (df.col c') := by
  unfold lowStep
  split
  · exact sublist_of_eq (col_mapCol_ne df _ h)
  · split
    · exact sublist_of_eq (col_mapCol_ne df _ h)
    · split
      · exact col_filterRows_sublist df _ c'
      · exact List.Sublist.refl _

theorem col_highStep_ne (df : DataFrame) {c c' : String} (t : ℚ) (s : String)
    (h : c' ≠ c) : ((highStep df c t s).1.col c').Sublist (df.col c') := by
  unfold highStep
  split
  · exact sublist_of_eq (col_mapCol_ne df _ h)
  · split
    · exact sublist_of_eq (col_mapCol_ne df _ h)
    · split
      · exact col_filterRows_sublist df _ c'
      · exact List.Sublist.refl _

theorem lowStep_cap_col (df : DataFrame) (c : String) (b : ℚ) :
    (lowStep df c b "cap").1.col c =
      (df.col c).map (fun v => if v.ltNum b then .num b else v) := by
  unfold lowStep
  rw [if_pos rfl]
  exact col_mapCol_self df c _

theorem lowStep_count (df : DataFrame) (c : String) (b : ℚ) (s : String) :
    (lowStep df c b s).2 = (df.col c).countP (fun v => v.ltNum b) := by
  unfold lowStep
  split
  · rfl
  · split
    · rfl
    · split <;> rfl

theorem highStep_count (df : DataFrame) (c : String) (t : ℚ) (s : String) :
    (highStep df c t s).2 = (df.col c).countP (fun v => v.gtNum t) := by
  unfold highStep
  split
  · rfl
  · split
    · rfl
    · split <;> rfl

theorem col_standardizeTextCols_ne (df : DataFrame) (columns : List String)
    {c : String} (h : c ∉ columns) :
    (standardizeTextCols df columns).col c = df.col c := by
  unfold standardizeTextCols
  refine foldl_pres_mem (fun d : DataFrame => d.col c = df.col c) _ columns ?_ df rfl
  intro d a ha hdp
  dsimp only
  split
  · exact (col_mapCol_ne d _ (fun he => h (by rw [he]; exact ha))).trans hdp
  · exact hdp

theorem keysOf_correctDateCol (env : Env) (df : DataFrame) {ks : List String}
    {c : String} (h : c ∉ ks) :
    keysOf ks (correctDateCol env df c) = keysOf ks df := by
  unfold correctDateCol
  split
  · rw [keysOf_mapCol _ _ h, keysOf_mapCol _ _ h]
  · rfl

theorem keysOf_correctNumCol (env : Env) (df : DataFrame) {ks : List String}
    {c : String} (h : c ∉ ks) :
    keysOf ks (correctNumCol env df c) = keysOf ks df := by
  unfold correctNumCol
  split
  · rw [keysOf_mapCol _ _ h]
  · rfl

theorem keysOf_correctDatatypes (env : Env) (df : DataFrame)
    (dcols ncols : List String) {ks : List String}
    (hd : ∀ a ∈ dcols, a ∉ ks) (hn : ∀ a ∈ ncols, a ∉ ks) :
    keysOf ks (correctDatatypes env df dcols ncols) = keysOf ks df := by
  unfold correctDatatypes
  have h1 : keysOf ks (dcols.foldl (correctDateCol env) df) = keysOf ks df :=
    foldl_pres_mem (fun d => keysOf ks d = keysOf ks df) (correctDateCol env) dcols
      (fun d a ha hdp => (keysOf_correctDateCol env d (hd a ha)).trans hdp) df rfl
  exact foldl_pres_mem (fun d => keysOf ks d = keysOf ks df) (correctNumCol env)
    ncols (fun d a ha hdp => (keysOf_correctNumCol env d (hn a ha)).trans hdp) _ h1

theorem keysOf_modeFillCol (p : DataFrame × List String) {ks : List String}
    {x : String} (h : x ∉ ks) :
    keysOf ks (modeFillCol p x).1 = keysOf ks p.1 := by
  unfold modeFillCol
  split
  · split
    · exact keysOf_mapCol _ _ h
    · exact keysOf_mapCol _ _ h
  · rfl

theorem keysOf_dropnaSubset (df : DataFrame) (cs : List String) (d' : DataFrame)
    (n : ℕ) (ks : List String) (h : dropnaSubset df cs = some (d', n)) :
    (keysOf ks d').Sublist (keysOf ks df) := by
  unfold dropnaSubset at h
  split at h
  · simp only [Option.some.injEq, Prod.mk.injEq] at h
    rw [← h.1]
    exact keysOf_filterRows_sublist df ks _
  · exact absurd h (by simp)

theorem keysOf_handleMissingValues (df : DataFrame) (m u dr : List String)
    (d' : DataFrame) (rep : MissReport) {ks : List String}
    (hm : ∀ a ∈ m, a ∉ ks) (hu : ∀ a ∈ u, a ∉ ks)
    (h : handleMissingValues df m u dr = some (d', rep)) :
    (keysOf ks d').Sublist (keysOf ks df) := by
  simp only [handleMissingValues] at h
  have h1 : keysOf ks (m.foldl modeFillCol (df, [])).1 = keysOf ks df :=
    foldl_pres_mem (fun p : DataFrame × List String => keysOf ks p.1 = keysOf ks df)
      modeFillCol m
      (fun p a ha hp => (keysOf_modeFillCol p (hm a ha)).trans hp) (df, []) rfl
  have h2 : keysOf ks (u.foldl
      (fun d x => if d.hasCol x then fillNullWith d x (.str "Unknown") else d)
      (m.foldl modeFillCol (df, [])).1) = keysOf ks df := by
    refine foldl_pres_mem (fun d : DataFrame => keysOf ks d = keysOf ks df) _ u ?_ _ h1
    intro d a ha hdp
    dsimp only
    split
    · exact (keysOf_mapCol d _ (hu a ha)).trans hdp
    · exact hdp
  split at h
  · simp only [Option.some.injEq, Prod.mk.injEq] at h
    rw [← h.1, h2]
  · split at h
    · next d3 n heq =>
      simp only [Option.some.injEq, Prod.mk.injEq] at h
      rw [← h.1]
      exact h2 ▸ keysOf_dropnaSubset _ _ _ _ ks heq
    · exact absurd h (by simp)

theorem keysOf_lowStep (df : DataFrame) {ks : List String} {c : String}
    (b : ℚ) (s : String) (h : c ∉ ks) :
    (keysOf ks (lowStep df c b s).1).Sublist (keysOf ks df) := by
  unfold lowStep
  split
  · exact sublist_of_eq (keysOf_mapCol df _ h)
  · split
    · exact sublist_of_eq (keysOf_mapCol df _ h)
    · split
      · exact keysOf_filterRows_sublist df ks _
      · exact List.Sublist.refl _

theorem keysOf_highStep (df : DataFrame) {ks : List String} {c : String}
    (t : ℚ) (s : String) (h : c ∉ ks) :
    (keysOf ks (highStep df c t s).1).Sublist (keysOf ks df) := by
  unfold highStep
  split
  · exact sublist_of_eq (keysOf_mapCol df _ h)
  · split
    · exact sublist_of_eq (keysOf_mapCol df _ h)
    · split
      · exact keysOf_filterRows_sublist df ks _
      · exact List.Sublist.refl _

theorem keysOf_handleOutliers (df : DataFrame) {ks : List String} {c : String}
    (lb uq : Option ℚ) (s : String) (h : c ∉ ks) :
    (keysOf ks (handleOutliers df c lb uq s).1).Sublist (keysOf ks df) := by
  unfold handleOutliers
  split
  · cases lb with
    | none =>
      cases uq with
      | none => exact List.Sublist.refl _
      | some q =>
        dsimp only
        split
        · exact List.Sublist.refl _
        · exact keysOf_highStep df _ _ h
    | some b =>
      cases uq with
      | none => exact keysOf_lowStep df _ _ h
      | some q =>
        dsimp only
        split
        · exact keysOf_lowStep df _ _ h
        · exact (keysOf_highStep _ _ _ h).trans (keysOf_lowStep df _ _ h)
  · exact List.Sublist.refl _

theorem keysOf_standardizeTextCols (df : DataFrame) (columns : List String)
    {ks : List String} (h : ∀ a ∈ columns, a ∉ ks) :
    keysOf ks (standardizeTextCols df columns) = keysOf ks df := by
  unfold standardizeTextCols
  refine foldl_pres_mem (fun d : DataFrame => keysOf ks d = keysOf ks df) _
    columns ?_ df rfl
  intro d a ha hdp
  dsimp only
  split
  · exact (keysOf_mapCol d _ (h a ha)).trans hdp
  · exact hdp

/-! ### Lemmas for the loyalty pipeline and its idempotence -/

theorem col_handleDuplicates_sublist (df : DataFrame) (ks : List String)
    (c : String) : ((handleDuplicates df ks).1.col c).Sublist (df.col c) := by
  have h := (rows_handleDuplicates_sublist df ks).map (fun r => r c)
  simpa [DataFrame.col] using h

theorem keysOf_handleDuplicates_sublist (df : DataFrame) (ks ks' : List String) :
    (keysOf ks (handleDuplicates df ks').1).Sublist (keysOf ks df) :=
  (rows_handleDuplicates_sublist df ks').map (keyOf ks)

theorem handleMissingValues_nodrop (df : DataFrame) (m u : List String) :
    ∃ d' rep, handleMissingValues df m u [] = some (d', rep) := ⟨_, _, rfl⟩

theorem dropnaSubset_isSome (df : DataFrame) (cs : List String)
    (h : cs.all df.hasCol = true) :
    ∃ d' n, dropnaSubset df cs = some (d', n) := by
  unfold dropnaSubset
  rw [if_pos h]
  exact ⟨_, _, rfl⟩

theorem handleOutliers_guard_false (df : DataFrame) (c : String)
    (lb uq : Option ℚ) (s : String)
    (h : (df.hasCol c && isNumericCol df c) = false) :
    handleOutliers df c lb uq s = (df, 0) := by
  unfold handleOutliers
  rw [if_neg (by simp [h])]

theorem handleOutliers_some_none (df : DataFrame) (c : String) (b : ℚ)
    (s : String) (h : (df.hasCol c && isNumericCol df c) = true) :
    handleOutliers df c (some b) none s =
      ((lowStep df c b s).1, (lowStep df c b s).2 + 0) := by
  unfold handleOutliers
  rw [if_pos h]

theorem cleanLoyalty_second (env : Env)
    (hnum : ∀ q : ℚ, env.toNum (.num q) = some q) (df1 : DataFrame)
    (hdup : (!(["loyalty_member_id", "customer_id"] : List String).isEmpty &&
        ["loyalty_member_id", "customer_id"].all df1.hasCol) = true →
      (keysOf ["loyalty_member_id", "customer_id"] df1).Nodup)
    (hpts : df1.hasCol "total_loyalty_points" = true →
      ∀ v ∈ df1.col "total_loyalty_points",
        v = Value.null ∨ ∃ q : ℚ, v = Value.num q ∧ 0 ≤ q)
    (hcust : df1.hasCol "customer_id" = true) :
    ∃ df2 r2, cleanLoyalty env df1 = some (df2, r2) ∧
      r2.dup = 0 ∧ r2.outliers = [0] := by
  have hdupz : (handleDuplicates df1 ["loyalty_member_id", "customer_id"]).2 = 0 := by
    by_cases hg : (!(["loyalty_member_id", "customer_id"] : List String).isEmpty &&
        ["loyalty_member_id", "customer_id"].all df1.hasCol) = true
    · exact handleDuplicates_count_zero df1 _ (hdup hg)
    · unfold handleDuplicates
      rw [if_neg hg]
  have hc1 : (handleDuplicates df1 ["loyalty_member_id", "customer_id"]).1.cols
      = df1.cols := cols_handleDuplicates df1 _
  have hc2 : (correctDatatypes env
        (handleDuplicates df1 ["loyalty_member_id", "customer_id"]).1
        [] ["total_loyalty_points"]).cols = df1.cols :=
    (cols_correctDatatypes env _ _ _).trans hc1
  obtain ⟨d3, rep3, hmv⟩ := handleMissingValues_nodrop
    (correctDatatypes env
      (handleDuplicates df1 ["loyalty_member_id", "customer_id"]).1
      [] ["total_loyalty_points"]) [] ["assigned_discount_group(s)"]
  have hc3 : d3.cols = df1.cols :=
    (cols_handleMissingValues _ _ _ _ _ _ hmv).trans hc2
  have hguard : (["customer_id"] : List String).all d3.hasCol = true := by
    simp only [List.all_cons, List.all_nil, Bool.and_true]
    rw [hasCol_eq_of_cols _ hc3]
    exact hcust
  obtain ⟨d4, n4, hdna⟩ := dropnaSubset_isSome d3 ["customer_id"] hguard
  have hc4 : d4.cols = df1.cols := (cols_dropnaSubset _ _ _ _ hdna).trans hc3
  have houtz : (handleOutliers d4 "total_loyalty_points" (some 0) none "cap").2 = 0 := by
    by_cases hcp : df1.hasCol "total_loyalty_points" = true
    · -- the points column is present and every cell is null or a non-negative number
      have hP1 : ∀ v ∈ (handleDuplicates df1
            ["loyalty_member_id", "customer_id"]).1.col "total_loyalty_points",
          v = Value.null ∨ ∃ q : ℚ, v = Value.num q ∧ 0 ≤ q := by
        intro v hv
        exact hpts hcp v ((col_handleDuplicates_sublist df1 _ _).subset hv)
      have hcp1 : (handleDuplicates df1
          ["loyalty_member_id", "customer_id"]).1.hasCol "total_loyalty_points" = true := by
        rw [hasCol_eq_of_cols _ hc1]
        exact hcp
      have hd2col : (correctDatatypes env
            (handleDuplicates df1 ["loyalty_member_id", "customer_id"]).1
            [] ["total_loyalty_points"]).col "total_loyalty_points"
          = ((handleDuplicates df1 ["loyalty_member_id", "customer_id"]).1.col
              "total_loyalty_points").map (numCell env) := by
        unfold correctDatatypes
        rw [List.foldl_nil, List.foldl_cons, List.foldl_nil]
        exact col_correctNumCol_self env _ _ hcp1
      have hP2 : ∀ v ∈ (correctDatatypes env
            (handleDuplicates df1 ["loyalty_member_id", "customer_id"]).1
            [] ["total_loyalty_points"]).col "total_loyalty_points",
          v = Value.null ∨ ∃ q : ℚ, v = Value.num q ∧ 0 ≤ q := by
        rw [hd2col]
        intro v hv
        obtain ⟨u, hu, he⟩ := List.mem_map.mp hv
        rcases hP1 u hu with hn | ⟨q, hq, hq0⟩
        · left
          rw [← he, hn]
          rfl
        · right
          refine ⟨q, ?_, hq0⟩
          rw [← he, hq]
          simp [numCell, Value.isNull, hnum q]
      have hP3 : ∀ v ∈ d3.col "total_loyalty_points",
          v = Value.null ∨ ∃ q : ℚ, v = Value.num q ∧ 0 ≤ q := by
        intro v hv
        refine hP2 v ((col_handleMissingValues_sub _ _ _ _ _ _ ?_ ?_ hmv).subset hv)
        · simp
        · simp
      have hP4 : ∀ v ∈ d4.col "total_loyalty_points",
          v = Value.null ∨ ∃ q : ℚ, v = Value.num q ∧ 0 ≤ q := by
        intro v hv
        exact hP3 v ((col_dropnaSubset _ _ _ _ _ hdna).subset hv)
      have hcp4 : d4.hasCol "total_loyalty_points" = true := by
        rw [hasCol_eq_of_cols _ hc4]
        exact hcp
      have hnumc : isNumericCol d4 "total_loyalty_points" = true := by
        unfold isNumericCol
        rw [List.all_eq_true]
        intro v hv
        rcases hP4 v hv with hn | ⟨q, hq, _⟩
        · rw [hn]
          rfl
        · rw [hq]
          rfl
      rw [handleOutliers_some_none d4 _ 0 "cap" (by rw [hcp4, hnumc]; rfl)]
      simp only [Nat.add_zero]
      rw [lowStep_count]
      rw [List.countP_eq_zero]
      intro v hv
      rcases hP4 v hv with hn | ⟨q, hq, hq0⟩
      · rw [hn]
        simp [Value.ltNum]
      · rw [hq]
        simp only [Value.ltNum, decide_eq_true_eq]
        exact not_lt.mpr hq0
    · rw [handleOutliers_guard_false d4 _ _ _ _ ?_]
      rw [Bool.and_eq_false_iff]
      left
      rw [hasCol_eq_of_cols _ hc4]
      exact Bool.not_eq_true _ ▸ Bool.eq_false_iff.mpr hcp
  simp only [cleanLoyalty]
  rw [hmv]
  dsimp only
  rw [hdna]
  dsimp only
  refine ⟨_, _, rfl, hdupz, ?_⟩
  rw [houtz]

theorem dropnaSubset_guard (df : DataFrame) (cs : List String) (d' : DataFrame)
    (n : ℕ) (h : dropnaSubset df cs = some (d', n)) : cs.all df.hasCol = true := by
  unfold dropnaSubset at h
  split at h
  · assumption
  · exact absurd h (by simp)

theorem cleanLoyalty_post (env : Env) (df df1 : DataFrame) (r1 : Report)
    (h : cleanLoyalty env df = some (df1, r1)) :
    df1.cols = df.cols ∧
    ((!(["loyalty_member_id", "customer_id"] : List String).isEmpty &&
        ["loyalty_member_id", "customer_id"].all df1.hasCol) = true →
      (keysOf ["loyalty_member_id", "customer_id"] df1).Nodup) ∧
    (df1.hasCol "total_loyalty_points" = true →
      ∀ v ∈ df1.col "total_loyalty_points",
        v = Value.null ∨ ∃ q : ℚ, v = Value.num q ∧ 0 ≤ q) ∧
    df1.hasCol "customer_id" = true := by
  simp only [cleanLoyalty] at h
  split at h
  · exact absurd h (by simp)
  · next d3 rep3 hmv =>
    split at h
    · exact absurd h (by simp)
    · next d4 n4 hdna =>
      simp only [Option.some.injEq, Prod.mk.injEq] at h
      obtain ⟨hdf1, hr1⟩ := h
      have hc1 : (handleDuplicates df ["loyalty_member_id", "customer_id"]).1.cols
          = df.cols := cols_handleDuplicates df _
      have hc2 : (correctDatatypes env
            (handleDuplicates df ["loyalty_member_id", "customer_id"]).1
            [] ["total_loyalty_points"]).cols = df.cols :=
        (cols_correctDatatypes env _ _ _).trans hc1
      have hc3 : d3.cols = df.cols :=
        (cols_handleMissingValues _ _ _ _ _ _ hmv).trans hc2
      have hc4 : d4.cols = df.cols := (cols_dropnaSubset _ _ _ _ hdna).trans hc3
      have hc5 : (handleOutliers d4 "total_loyalty_points"
          (some 0) none "cap").1.cols = df.cols :=
        (cols_handleOutliers _ _ _ _ _).trans hc4
      have hc6 : df1.cols = df.cols := by
        rw [← hdf1]
        exact (cols_standardizeTextCols _ _).trans hc5
      have hfun : ∀ x, df1.hasCol x = df.hasCol x := fun x => hasCol_eq_of_cols x hc6
      refine ⟨hc6, ?_, ?_, ?_⟩
      · -- no two surviving rows agree on the duplicate key
        intro hg1
        have hgdf : (!(["loyalty_member_id", "customer_id"] : List String).isEmpty &&
            ["loyalty_member_id", "customer_id"].all df.hasCol) = true := by
          rw [← hg1]
          simp only [List.all_cons, List.all_nil, hfun]
        have hnd : (keysOf ["loyalty_member_id", "customer_id"]
            (handleDuplicates df ["loyalty_member_id", "customer_id"]).1).Nodup :=
          handleDuplicates_keys_nodup df _ hgdf
        have hk2 : keysOf ["loyalty_member_id", "customer_id"]
              (correctDatatypes env
                (handleDuplicates df ["loyalty_member_id", "customer_id"]).1
                [] ["total_loyalty_points"])
            = keysOf ["loyalty_member_id", "customer_id"]
              (handleDuplicates df ["loyalty_member_id", "customer_id"]).1 :=
          keysOf_correctDatatypes env _ _ _ (by simp) (by decide)
        have hk3 := @keysOf_handleMissingValues _ _ _ _ _ _
          ["loyalty_member_id", "customer_id"] (by simp) (by decide) hmv
        have hk4 := keysOf_dropnaSubset _ _ _ _
          ["loyalty_member_id", "customer_id"] hdna
        have hk5 := @keysOf_handleOutliers d4
          ["loyalty_member_id", "customer_id"] "total_loyalty_points"
          (some 0) none "cap" (by decide)
        have hk6 : keysOf ["loyalty_member_id", "customer_id"] df1
            = keysOf ["loyalty_member_id", "customer_id"]
              (handleOutliers d4 "total_loyalty_points" (some 0) none "cap").1 := by
          rw [← hdf1]
          exact keysOf_standardizeTextCols _ _ (by intro a ha; simp at ha; rw [ha]; decide)
        rw [hk6]
        exact ((hk5.trans hk4).trans (hk2 ▸ hk3)).nodup hnd
      · -- every surviving points cell is null or a non-negative number
        intro hcp
        have hcpdf : df.hasCol "total_loyalty_points" = true := by
          rw [← hfun]
          exact hcp
        have hcp1 : (handleDuplicates df
            ["loyalty_member_id", "customer_id"]).1.hasCol "total_loyalty_points"
            = true := by
          rw [hasCol_eq_of_cols _ hc1]
          exact hcpdf
        have hd2col : (correctDatatypes env
              (handleDuplicates df ["loyalty_member_id", "customer_id"]).1
              [] ["total_loyalty_points"]).col "total_loyalty_points"
            = ((handleDuplicates df ["loyalty_member_id", "customer_id"]).1.col
                "total_loyalty_points").map (numCell env) := by
          unfold correctDatatypes
          rw [List.foldl_nil, List.foldl_cons, List.foldl_nil]
          exact col_correctNumCol_self env _ _ hcp1
        have hQ2 : ∀ v ∈ (correctDatatypes env
              (handleDuplicates df ["loyalty_member_id", "customer_id"]).1
              [] ["total_loyalty_points"]).col "total_loyalty_points",
            v = Value.null ∨ ∃ q : ℚ, v = Value.num q := by
          rw [hd2col]
          intro v hv
          obtain ⟨u, _, he⟩ := List.mem_map.mp hv
          rw [← he]
          unfold numCell
          split
          · exact Or.inl rfl
          · split
            · exact Or.inr ⟨_, rfl⟩
            · exact Or.inl rfl
        have hQ4 : ∀ v ∈ d4.col "total_loyalty_points",
            v = Value.null ∨ ∃ q : ℚ, v = Value.num q := by
          intro v hv
          refine hQ2 v ?_
          refine (col_handleMissingValues_sub _ _ _ _ _ _ (by simp)
            (by decide) hmv).subset ?_
          exact (col_dropnaSubset _ _ _ _ _ hdna).subset hv
        have hcp4 : d4.hasCol "total_loyalty_points" = true := by
          rw [hasCol_eq_of_cols _ hc4]
          exact hcpdf
        have hnumc : isNumericCol d4 "total_loyalty_points" = true := by
          unfold isNumericCol
          rw [List.all_eq_true]
          intro v hv
          rcases hQ4 v hv with hn | ⟨q, hq⟩
          · rw [hn]
            rfl
          · rw [hq]
            rfl
        have hcolout : (handleOutliers d4 "total_loyalty_points"
              (some 0) none "cap").1.col "total_loyalty_points"
            = (d4.col "total_loyalty_points").map
                (fun v => if v.ltNum 0 then .num 0 else v) := by
          rw [congrArg Prod.fst
            (handleOutliers_some_none d4 _ 0 "cap" (by rw [hcp4, hnumc]; rfl))]
          exact lowStep_cap_col d4 _ 0
        have hcoldf1 : df1.col "total_loyalty_points"
            = (handleOutliers d4 "total_loyalty_points"
                (some 0) none "cap").1.col "total_loyalty_points" := by
          rw [← hdf1]
          exact col_standardizeTextCols_ne _ _ (by decide)
        rw [hcoldf1, hcolout]
        intro v hv
        obtain ⟨u, hu, he⟩ := List.mem_map.mp hv
        rcases hQ4 u hu with hn | ⟨q, hq⟩
        · left
          rw [← he, hn]
          rfl
        · subst hq
          by_cases hlt : (Value.num q).ltNum 0 = true

          · right
            refine ⟨0, ?_, le_refl 0⟩
            rw [← he, if_pos hlt]
          · right
            refine ⟨q, ?_, ?_⟩
            · rw [← he, if_neg (by simpa using hlt)]
            · have : ¬(q < 0) := by
                simpa [Value.ltNum] using hlt
              exact not_lt.mp this
      · -- the customer id column survived
        have hg := dropnaSubset_guard _ _ _ _ hdna
        simp only [List.all_cons, List.all_nil, Bool.and_true] at hg
        rw [hfun "customer_id", ← hasCol_eq_of_cols "customer_id" hc3]
        exact hg

theorem mem_ratsOf (xs : List Value) (y : ℚ) :
    y ∈ ratsOf xs ↔ Value.num y ∈ xs := by
  unfold ratsOf
  rw [List.mem_filterMap]
  constructor
  · rintro ⟨v, hv, he⟩
    cases v with
    | num q =>
      simp only [Option.some.injEq] at he
      rw [← he]
      exact hv
    | str s => simp at he
    | date d => simp at he
    | null => simp at he
  · intro hv
    exact ⟨Value.num y, hv, rfl⟩

theorem highStep_cap_col (df : DataFrame) (c : String) (t : ℚ) :
    (highStep df c t "cap").1.col c =
      (df.col c).map (fun v => if v.gtNum t then .num t else v) := by
  unfold highStep
  rw [if_pos rfl]
  exact col_mapCol_self df c _

theorem handleOutliers_quantile_none (df : DataFrame) (c : String) (b q : ℚ)
    (s : String) (hg : (df.hasCol c && isNumericCol df c) = true)
    (hqt : quantile (ratsOf ((lowStep df c b s).1.col c)) q = none) :
    handleOutliers df c (some b) (some q) s =
      ((lowStep df c b s).1, (lowStep df c b s).2 + 0) := by
  unfold handleOutliers
  rw [if_pos hg]
  dsimp only
  rw [hqt]

theorem handleOutliers_quantile_some (df : DataFrame) (c : String) (b q t : ℚ)
    (s : String) (hg : (df.hasCol c && isNumericCol df c) = true)
    (hqt : quantile (ratsOf ((lowStep df c b s).1.col c)) q = some t) :
    handleOutliers df c (some b) (some q) s =
      ((highStep (lowStep df c b s).1 c t s).1,
        (lowStep df c b s).2 + (highStep (lowStep df c b s).1 c t s).2) := by
  unfold handleOutliers
  rw [if_pos hg]
  dsimp only
  rw [hqt]

/-! ### The claims -/

/-- C1 (amended): re-running the cleaning pipeline on its own output is
idempotent for the loyalty pipeline — the only pipeline with no upper
quantile and whose duplicate-key columns are untouched by the later steps:
the second run removes zero duplicate rows and flags zero outliers.  (The
transactions and customers pipelines are not idempotent; see the
counterexample.) -/
theorem c1_loyalty_pipeline_idempotent (env : Env)
    (hnum : ∀ q : ℚ, env.toNum (.num q) = some q) (df df1 : DataFrame)
    (r1 : Report) (h : cleanLoyalty env df = some (df1, r1)) :
    ∃ df2 r2, cleanLoyalty env df1 = some (df2, r2) ∧
      r2.dup = 0 ∧ r2.outliers = [0] := by
  obtain ⟨_, hdup, hpts, hcust⟩ := cleanLoyalty_post env df df1 r1 h
  exact cleanLoyalty_second env hnum df1 hdup hpts hcust

/-- C1 counterexample: on a transactions dataset whose order totals are 1
and 100, the first run caps 100 at the 0.99-quantile 99.01; the second run
recomputes the 0.99 quantile of the capped column (98.0299) and flags the
already-capped value again, so the second run performs one further outlier
correction (`outliers = [1, 0]`, not `[0, 0]`), refuting the claim. -/
theorem c1_counterexample :
    ((cleanTransactions defaultEnv dfTx).bind
        (fun p => cleanTransactions defaultEnv p.1)).map (fun p => p.2.outliers)
      = some [1, 0] := by decide

/-- C1 witness: the amended theorem applied to a concrete loyalty run. -/
theorem c1_witness :
    ∃ df2 r2,
      cleanLoyalty defaultEnv
          (DataFrame.mk
            ["loyalty_member_id", "customer_id", "total_loyalty_points"] [])
        = some (df2, r2) ∧ r2.dup = 0 ∧ r2.outliers = [0] :=
  c1_loyalty_pipeline_idempotent defaultEnv (fun _ => rfl) dfLoyEmpty
    (DataFrame.mk ["loyalty_member_id", "customer_id", "total_loyalty_points"] [])
    ⟨0, 0, [], [0]⟩ rfl

/-- C2: in one outlier pass with both a lower bound and an upper quantile on
a present numeric column, `_handle_outliers` is the lower-bound step followed
by the upper step, the upper threshold is the quantile of the column's
values as they stand after the lower-bound step's strategy has been applied,
and exactly the values strictly greater than that threshold are counted as
invalid-high. -/
theorem c2_upper_quantile_after_lower_step (df : DataFrame) (c : String)
    (b q : ℚ) (s : String) (hg : (df.hasCol c && isNumericCol df c) = true) :
    (∀ t, quantile (ratsOf ((lowStep df c b s).1.col c)) q = some t →
        handleOutliers df c (some b) (some q) s =
            ((highStep (lowStep df c b s).1 c t s).1,
              (lowStep df c b s).2 + (highStep (lowStep df c b s).1 c t s).2) ∧
          (highStep (lowStep df c b s).1 c t s).2 =
            ((lowStep df c b s).1.col c).countP (fun v => v.gtNum t)) ∧
      (quantile (ratsOf ((lowStep df c b s).1.col c)) q = none →
        handleOutliers df c (some b) (some q) s =
          ((lowStep df c b s).1, (lowStep df c b s).2 + 0)) := by
  constructor
  · intro t ht
    exact ⟨handleOutliers_quantile_some df c b q t s hg ht, highStep_count _ _ _ _⟩
  · intro ht
    exact handleOutliers_quantile_none df c b q s hg ht

/-- C2 witness: the theorem applied to a concrete pass with the "remove"
strategy, where the lower-bound step removes the value 0 and the threshold
10 is the quantile of the remaining column [10] — not of the original
column [0, 10], whose 0.5-quantile would have been 5. -/
theorem c2_witness :
    handleOutliers dfNum "x" (some 1) (some (mkRat 1 2)) "remove" =
        ((highStep (lowStep dfNum "x" 1 "remove").1 "x" 10 "remove").1,
          (lowStep dfNum "x" 1 "remove").2 +
            (highStep (lowStep dfNum "x" 1 "remove").1 "x" 10 "remove").2) ∧
      (highStep (lowStep dfNum "x" 1 "remove").1 "x" 10 "remove").2 =
        ((lowStep dfNum "x" 1 "remove").1.col "x").countP (fun v => v.gtNum 10) :=
  (c2_upper_quantile_after_lower_step dfNum "x" 1 (mkRat 1 2) "remove"
    (by decide)).1 10 (by decide)

/-- C3: with the Clip ("cap") strategy, both bounds configured, on a present
numeric column, every surviving numeric value of the column lies within
[lower bound, quantile-derived upper limit] inclusive. -/
theorem c3_clip_range_invariant (df : DataFrame) (c : String) (b q : ℚ)
    (hq0 : 0 ≤ q) (hq1 : q ≤ 1)
    (hg : (df.hasCol c && isNumericCol df c) = true) :
    ∀ x : ℚ,
      Value.num x ∈ (handleOutliers df c (some b) (some q) "cap").1.col c →
      ∃ t, quantile (ratsOf ((lowStep df c b "cap").1.col c)) q = some t ∧
        b ≤ x ∧ x ≤ t := by
  intro x hx
  have hlowcol := lowStep_cap_col df c b
  have hlowP : ∀ y : ℚ, Value.num y ∈ (lowStep df c b "cap").1.col c → b ≤ y := by
    rw [hlowcol]
    intro y hy
    obtain ⟨u, _, he⟩ := List.mem_map.mp hy
    by_cases hu : u.ltNum b = true
    · rw [if_pos hu] at he
      cases he
      exact le_refl b
    · rw [if_neg hu] at he
      rw [he] at hu
      simp only [Value.ltNum, decide_eq_true_eq] at hu
      exact not_lt.mp hu
  cases hqt : quantile (ratsOf ((lowStep df c b "cap").1.col c)) q with
  | none =>
    -- impossible: the surviving numeric value already sits in the column
    rw [handleOutliers_quantile_none df c b q "cap" hg hqt] at hx
    have : (ratsOf ((lowStep df c b "cap").1.col c)) ≠ [] := by
      intro he
      have := (mem_ratsOf _ x).mpr hx
      rw [he] at this
      exact List.not_mem_nil x this
    obtain ⟨t, ht⟩ := quantile_isSome _ q this
    rw [ht] at hqt
    exact absurd hqt (by simp)
  | some t =>
    refine ⟨t, rfl, ?_⟩
    have hge : b ≤ t := by
      refine quantile_ge _ q b t hq0 hq1 ?_ hqt
      intro y hy
      exact hlowP y ((mem_ratsOf _ y).mp hy)
    rw [handleOutliers_quantile_some df c b q t "cap" hg hqt] at hx
    rw [highStep_cap_col] at hx
    obtain ⟨u, hu, he⟩ := List.mem_map.mp hx
    by_cases hgt : u.gtNum t = true
    · rw [if_pos hgt] at he
      injection he with hte
      subst hte
      exact ⟨hge, le_refl _⟩
    · rw [if_neg hgt] at he
      rw [he] at hgt
      simp only [Value.gtNum, decide_eq_true_eq] at hgt
      exact ⟨hlowP x (he ▸ hu), not_lt.mp hgt⟩

/-- C3 witness: the theorem applied to a concrete clip pass on the column
[-5, 100, null] with lower bound 0 and quantile 1/2, at the surviving value
50 (the capped former 100). -/
theorem c3_witness :
    ∃ t, quantile (ratsOf ((lowStep dfNum3 "x" 0 "cap").1.col "x")) (mkRat 1 2)
        = some t ∧ (0 : ℚ) ≤ 50 ∧ (50 : ℚ) ≤ t :=
  c3_clip_range_invariant dfNum3 "x" 0 (mkRat 1 2) (by decide) (by decide)
    (by decide) 50 (by decide)

/-- C4: when every column of the non-empty configured duplicate key is
present, duplicate elimination leaves no two rows agreeing on the full key
tuple, keeps a subsequence of the original rows, and the row retained for
each key tuple is the first row of the input carrying that tuple. -/
theorem c4_duplicate_elimination (df : DataFrame) (ks : List String)
    (hne : ks.isEmpty = false) (hall : ks.all df.hasCol = true) :
    ((handleDuplicates df ks).1.rows.map (keyOf ks)).Nodup ∧
      (handleDuplicates df ks).1.rows.Sublist df.rows ∧
      ∀ r' ∈ (handleDuplicates df ks).1.rows,
        df.rows.find? (fun r => decide (keyOf ks r = keyOf ks r')) = some r' := by
  have hg : (!ks.isEmpty && ks.all df.hasCol) = true := by
    rw [hne, hall]
    rfl
  unfold handleDuplicates
  rw [if_pos hg]
  refine ⟨dedupRows_keys_nodup ks df.rows [], dedupRows_sublist ks df.rows [], ?_⟩
  intro r' hr'
  exact (dedupRows_spec ks df.rows [] r' hr').2

/-- C4 witness: the theorem applied to a dataset with a repeated key. -/
theorem c4_witness :
    ((handleDuplicates dfDup ["a"]).1.rows.map (keyOf ["a"])).Nodup ∧
      (handleDuplicates dfDup ["a"]).1.rows.Sublist dfDup.rows ∧
      ∀ r' ∈ (handleDuplicates dfDup ["a"]).1.rows,
        dfDup.rows.find? (fun r => decide (keyOf ["a"] r = keyOf ["a"] r'))
          = some r' :=
  c4_duplicate_elimination dfDup ["a"] rfl (by decide)

/-- C5: temporal coercion of a present date column (not also listed as a
numeric column) is the cell-wise parse followed by the future-date reset: a
parsed timestamp at or before the processing instant is kept, and no
temporal value of the processed column is later than the processing
instant. -/
theorem c5_temporal_invariant (env : Env) (df : DataFrame) (c : String)
    (ncols : List String) (hc : df.hasCol c = true) (hn : c ∉ ncols) :
    (correctDatatypes env df [c] ncols).col c
        = (df.col c).map (fun v => futureCell env (dateCell env v)) ∧
      (∀ v : Value, ∀ d : ℤ, env.toDate v = some d → v ≠ Value.null →
        d ≤ env.now → futureCell env (dateCell env v) = Value.date d) ∧
      ∀ d : ℤ, Value.date d ∈ (correctDatatypes env df [c] ncols).col c →
        d ≤ env.now := by
  have hcol : (correctDatatypes env df [c] ncols).col c
      = (df.col c).map (fun v => futureCell env (dateCell env v)) := by
    unfold correctDatatypes
    have hstep : ([c].foldl (correctDateCol env) df).col c
        = (df.col c).map (fun v => futureCell env (dateCell env v)) := by
      rw [List.foldl_cons, List.foldl_nil]
      unfold correctDateCol
      rw [if_pos hc, col_mapCol_self, col_mapCol_self, List.map_map]
      rfl
    refine (foldl_pres_mem
      (fun d => d.col c = ([c].foldl (correctDateCol env) df).col c)
      (correctNumCol env) ncols ?_ _ rfl).trans hstep
    intro d a ha hdp
    exact (col_correctNumCol_ne env d (fun he => hn (by rw [he]; exact ha))).trans hdp
  refine ⟨hcol, ?_, ?_⟩
  · intro v d hparse hvn hdle
    cases v with
    | null => exact absurd rfl hvn
    | num q =>
      show futureCell env (match env.toDate (Value.num q) with
        | some d => Value.date d | none => Value.null) = Value.date d
      rw [hparse]
      exact if_neg (not_lt.mpr hdle)
    | str s =>
      show futureCell env (match env.toDate (Value.str s) with
        | some d => Value.date d | none => Value.null) = Value.date d
      rw [hparse]
      exact if_neg (not_lt.mpr hdle)
    | date e =>
      show futureCell env (match env.toDate (Value.date e) with
        | some d => Value.date d | none => Value.null) = Value.date d
      rw [hparse]
      exact if_neg (not_lt.mpr hdle)
  · rw [hcol]
    intro d hd
    obtain ⟨u, _, he⟩ := List.mem_map.mp hd
    rcases hdc : dateCell env u with q | s | e
    · rw [hdc] at he
      exact Value.noConfusion he
    · rw [hdc] at he
      exact Value.noConfusion he
    · rw [hdc] at he
      by_cases hlt : env.now < e
      · rw [show futureCell env (Value.date e)
            = (if env.now < e then Value.null else Value.date e) from rfl,
          if_pos hlt] at he
        exact Value.noConfusion he
      · rw [show futureCell env (Value.date e)
            = (if env.now < e then Value.null else Value.date e) from rfl,
          if_neg hlt] at he
        injection he with hed
        subst hed
        exact not_lt.mp hlt
    · rw [hdc] at he
      exact Value.noConfusion he

/-- C5 witness: the theorem applied to the DOB column [date 5, date -3,
text] with processing instant 0: the future date 5 is reset to null, the
past date -3 is kept, the text fails to parse. -/
theorem c5_witness :
    (correctDatatypes defaultEnv dfDates ["DOB"] []).col "DOB"
        = (dfDates.col "DOB").map
            (fun v => futureCell defaultEnv (dateCell defaultEnv v)) ∧
      (∀ v : Value, ∀ d : ℤ, defaultEnv.toDate v = some d → v ≠ Value.null →
        d ≤ defaultEnv.now →
        futureCell defaultEnv (dateCell defaultEnv v) = Value.date d) ∧
      ∀ d : ℤ, Value.date d ∈ (correctDatatypes defaultEnv dfDates ["DOB"] []).col "DOB" →
        d ≤ defaultEnv.now :=
  c5_temporal_invariant defaultEnv dfDates "DOB" [] (by decide)
    (List.not_mem_nil _)

/-- C6 (amended): for a present mode-fill column with at least one non-null
value, nulls are filled with a most frequent non-null value and no warning
is recorded; when several values tie for most frequent, the filled value is
the LEAST such value in ascending order — pandas `Series.mode` returns the
modes sorted and `[0]` takes the head — not the first-encountered one. -/
theorem c6_mode_fill_min_tie (df : DataFrame) (c : String) (m : Value)
    (hc : df.hasCol c = true) (hm : modeVal (df.col c) = some m) :
    (handleMissingValues df [c] [] []).map (fun p => (p.1.col c, p.2.fallback))
        = some ((df.col c).map (fun v => if v.isNull then m else v), []) ∧
      m ∈ nonNullVals (df.col c) ∧
      (∀ v ∈ nonNullVals (df.col c),
        (nonNullVals (df.col c)).count v ≤ (nonNullVals (df.col c)).count m) ∧
      ∀ v ∈ nonNullVals (df.col c),
        (nonNullVals (df.col c)).count v = (nonNullVals (df.col c)).count m →
          vle m v = true := by
  obtain ⟨hmem, hcnt, htie⟩ := modeVal_spec _ m hm
  refine ⟨?_, hmem, hcnt, htie⟩
  simp only [handleMissingValues, List.foldl_cons, List.foldl_nil,
    List.isEmpty_nil, if_true]
  unfold modeFillCol
  rw [if_pos hc, hm]
  simp only [Option.map_some']
  unfold fillNullWith
  rw [col_mapCol_self]

/-- C6 counterexample: in the column ["b", "a", null] the counts of "a" and
"b" tie; the specification's first-encountered rule picks "b", but the code
fills the null with "a", the least value in ascending order. -/
theorem c6_counterexample :
    (handleMissingValues dfTie ["pm"] [] []).map (fun p => p.1.col "pm")
        = some [Value.str "b", Value.str "a", Value.str "a"] ∧
      firstMode (dfTie.col "pm") = some (Value.str "b") ∧
      Value.str "a" ≠ Value.str "b" := ⟨by decide, by decide, by decide⟩

/-- C6 witness: the amended theorem applied to the tied column
["b", "a", null], whose mode is "a". -/
theorem c6_witness :
    (handleMissingValues dfTie ["pm"] [] []).map
        (fun p => (p.1.col "pm", p.2.fallback))
        = some ((dfTie.col "pm").map
            (fun v => if v.isNull then Value.str "a" else v), []) ∧
      Value.str "a" ∈ nonNullVals (dfTie.col "pm") ∧
      (∀ v ∈ nonNullVals (dfTie.col "pm"),
        (nonNullVals (dfTie.col "pm")).count v
          ≤ (nonNullVals (dfTie.col "pm")).count (Value.str "a")) ∧
      ∀ v ∈ nonNullVals (dfTie.col "pm"),
        (nonNullVals (dfTie.col "pm")).count v
            = (nonNullVals (dfTie.col "pm")).count (Value.str "a") →
          vle (Value.str "a") v = true :=
  c6_mode_fill_min_tie dfTie "pm" (Value.str "a") (by decide) (by decide)

/-- C7 (amended): a present mode-fill column that is entirely null has its
nulls filled with the fixed text "unknown" and the warning is recorded —
but this fallback text differs in capitalization from the "Unknown"
sentinel that sentinel-fill substitutes unconditionally. -/
theorem c7_allnull_fallback (df : DataFrame) (c : String)
    (hc : df.hasCol c = true) (hnull : nonNullVals (df.col c) = []) :
    (handleMissingValues df [c] [] []).map (fun p => (p.1.col c, p.2.fallback))
        = some ((df.col c).map
            (fun v => if v.isNull then Value.str "unknown" else v), [c]) ∧
      "unknown" ≠ "Unknown" := by
  have hmode : modeVal (df.col c) = none := by
    unfold modeVal
    rw [hnull]
    rfl
  refine ⟨?_, by decide⟩
  simp only [handleMissingValues, List.foldl_cons, List.foldl_nil,
    List.isEmpty_nil, if_true]
  unfold modeFillCol
  rw [if_pos hc, hmode]
  simp only [Option.map_some', List.nil_append]
  unfold fillNullWith
  rw [col_mapCol_self]

/-- C7 counterexample: with an all-null mode column "m" and a null sentinel
column "u", the mode fallback writes "unknown" while sentinel-fill writes
"Unknown" — two different values, refuting that they are the same fixed
sentinel. -/
theorem c7_counterexample :
    (handleMissingValues dfAllNull ["m"] ["u"] []).map
        (fun p => (p.1.col "m", p.1.col "u", p.2.fallback))
        = some ([Value.str "unknown"], [Value.str "Unknown"], ["m"]) ∧
      Value.str "unknown" ≠ Value.str "Unknown" := ⟨by decide, by decide⟩

/-- C7 witness: the amended theorem applied to the all-null column "m". -/
theorem c7_witness :
    (handleMissingValues dfAllNull ["m"] [] []).map
        (fun p => (p.1.col "m", p.2.fallback))
        = some ((dfAllNull.col "m").map
            (fun v => if v.isNull then Value.str "unknown" else v), ["m"]) ∧
      "unknown" ≠ "Unknown" :=
  c7_allnull_fallback dfAllNull "m" (by decide) (by decide)

/-- C8 (amended): text normalization of a present textual column strips
leading and trailing whitespace and then title-cases with a word boundary at
EVERY non-letter character (Python `str.title`), not only at whitespace: a
letter is uppercased exactly when the character before it is not a letter,
and every other letter is lowercased.  "  milk bread " still normalizes to
"Milk Bread". -/
theorem c8_text_normalization (df : DataFrame) (c : String)
    (hc : df.hasCol c = true) (hs : isStringCol df c = true) :
    (standardizeTextCols df [c]).col c = (df.col c).map stripTitleCell ∧
      ∀ l : List Char,
        titleAux false l
          = List.zipWith titleChar (false :: l.map Char.isAlpha) l := by
  constructor
  · unfold standardizeTextCols
    rw [List.foldl_cons, List.foldl_nil, if_pos (by rw [hc, hs]; rfl)]
    exact col_mapCol_self df c _
  · have haux : ∀ (l : List Char) (b : Bool),
        titleAux b l = List.zipWith titleChar (b :: l.map Char.isAlpha) l := by
      intro l
      induction l with
      | nil => intro b; rfl
      | cons ch cs ih =>
        intro b
        rw [titleAux, List.map_cons, List.zipWith_cons_cons, ih]
    exact fun l => haux l false

/-- C8 counterexample: the value "milk-bread" is normalized by the code to
"Milk-Bread" — the hyphen is a word boundary for `str.title` — while the
claim's whitespace-delimited rule yields "Milk-bread"; the outputs differ. -/
theorem c8_counterexample :
    (standardizeTextCols dfHyphen ["item_name"]).col "item_name"
        = [Value.str "Milk-Bread"] ∧
      wsTitle (String.mk (pyStrip ("milk-bread".data))) = "Milk-bread" ∧
      ("Milk-Bread" : String) ≠ "Milk-bread" := ⟨by decide, by decide, by decide⟩

/-- C8 witness: the amended theorem applied to the column holding
"  milk bread ", which normalizes to "Milk Bread" (scenario E of the
specification). -/
theorem c8_witness :
    (standardizeTextCols dfMilk ["item_name"]).col "item_name"
        = [Value.str "Milk Bread"] ∧
      ∀ l : List Char,
        titleAux false l
          = List.zipWith titleChar (false :: l.map Char.isAlpha) l := by
  have h := c8_text_normalization dfMilk "item_name" (by decide) (by decide)
  refine ⟨?_, h.2⟩
  rw [h.1]
  decide

/-- C9 (amended): a configured column that is absent from the dataset causes
duplicate elimination, type coercion, mode-fill, sentinel-fill, outlier
handling and text normalization to be skipped as no-ops without error — but
not drop-if-null: `df.dropna(subset=...)` raises a KeyError (modelled by the
`none` result) when a listed column is absent. -/
theorem c9_absent_column (env : Env) (df : DataFrame) (c : String)
    (ks : List String) (b t : ℚ) (s : String)
    (hc : df.hasCol c = false) (hk : c ∈ ks) :
    handleDuplicates df ks = (df, 0) ∧
      correctDatatypes env df [c] [c] = df ∧
      handleMissingValues df [c] [c] [] = some (df, ⟨0, []⟩) ∧
      dropnaSubset df [c] = none ∧
      handleMissingValues df [] [] [c] = none ∧
      handleOutliers df c (some b) (some t) s = (df, 0) ∧
      standardizeTextCols df [c] = df := by
  have hcne : ¬(df.hasCol c = true) := by
    rw [hc]
    exact Bool.false_ne_true
  have hall : ¬(ks.all df.hasCol = true) := by
    intro h
    rw [List.all_eq_true] at h
    exact hcne (h c hk)
  have hdna : dropnaSubset df [c] = none := by
    unfold dropnaSubset
    rw [if_neg (by simp [hc])]
  refine ⟨?_, ?_, ?_, hdna, ?_, ?_, ?_⟩
  · unfold handleDuplicates
    rw [if_neg (fun hg => hall (Bool.and_eq_true .. ▸ hg).2)]
  · unfold correctDatatypes
    rw [List.foldl_cons, List.foldl_nil, List.foldl_cons, List.foldl_nil]
    unfold correctDateCol correctNumCol
    rw [if_neg hcne, if_neg hcne]
  · simp only [handleMissingValues, List.foldl_cons, List.foldl_nil,
      List.isEmpty_nil, if_true]
    unfold modeFillCol
    rw [if_neg hcne]
    rw [if_neg hcne]
  · simp only [handleMissingValues, List.foldl_nil]
    rw [if_neg (by exact Bool.false_ne_true)]
    rw [hdna]
  · exact handleOutliers_guard_false df c _ _ s (by rw [hc]; rfl)
  · unfold standardizeTextCols
    rw [List.foldl_cons, List.foldl_nil,
      if_neg (by rw [hc]; exact Bool.false_ne_true)]

/-- C9 counterexample: drop-if-null on the absent column "zz" raises
(returns the error value none) instead of passing the dataset through
unchanged, refuting the claim for the drop-if-null operation. -/
theorem c9_counterexample :
    handleMissingValues dfA [] [] ["zz"] = none ∧
      dropnaSubset dfA ["zz"] = none := ⟨rfl, rfl⟩

/-- C9 witness: the amended theorem applied to the absent column "zz" of a
concrete one-column dataset. -/
theorem c9_witness :
    handleDuplicates dfA ["zz", "a"] = (dfA, 0) ∧
      correctDatatypes defaultEnv dfA ["zz"] ["zz"] = dfA ∧
      handleMissingValues dfA ["zz"] ["zz"] [] = some (dfA, ⟨0, []⟩) ∧
      dropnaSubset dfA ["zz"] = none ∧
      handleMissingValues dfA [] [] ["zz"] = none ∧
      handleOutliers dfA "zz" (some 0) (some 1) "cap" = (dfA, 0) ∧
      standardizeTextCols dfA ["zz"] = dfA :=
  c9_absent_column defaultEnv dfA "zz" ["zz", "a"] 0 1 "cap" (by decide)
    (List.mem_cons_self _ _)

theorem forall2_null_refl (l : List Value) :
    List.Forall₂ (fun v w => v = Value.null → w = Value.null) l l := by
  induction l with
  | nil => exact List.Forall₂.nil
  | cons a l ih => exact List.Forall₂.cons (fun h => h) ih

theorem forall2_null_map (l : List Value) (f : Value → Value)
    (hf : f Value.null = Value.null) :
    List.Forall₂ (fun v w => v = Value.null → w = Value.null) l (l.map f) := by
  induction l with
  | nil => exact List.Forall₂.nil
  | cons a l ih =>
    rw [List.map_cons]
    exact List.Forall₂.cons (fun h => by rw [h]; exact hf) ih

theorem forall2_null_trans {l1 l2 l3 : List Value}
    (h12 : List.Forall₂ (fun v w => v = Value.null → w = Value.null) l1 l2)
    (h23 : List.Forall₂ (fun v w => v = Value.null → w = Value.null) l2 l3) :
    List.Forall₂ (fun v w => v = Value.null → w = Value.null) l1 l3 := by
  induction h12 generalizing l3 with
  | nil =>
    cases h23
    exact List.Forall₂.nil
  | cons hab h ih =>
    cases h23 with
    | cons hbc h23' => exact List.Forall₂.cons (fun hv => hbc (hab hv)) (ih h23')

theorem lowStep_forall2_null (df : DataFrame) (c : String) (b : ℚ) (s : String)
    (hs : s ≠ "remove") :
    List.Forall₂ (fun v w => v = Value.null → w = Value.null)
      (df.col c) ((lowStep df c b s).1.col c) := by
  unfold lowStep
  by_cases h1 : s = "cap"
  · rw [if_pos h1]
    dsimp only
    rw [col_mapCol_self]
    exact forall2_null_map _ _ rfl
  · rw [if_neg h1]
    by_cases h2 : s = "nan"
    · rw [if_pos h2]
      dsimp only
      rw [col_mapCol_self]
      exact forall2_null_map _ _ rfl
    · rw [if_neg h2, if_neg hs]
      exact forall2_null_refl _

theorem highStep_forall2_null (df : DataFrame) (c : String) (t : ℚ) (s : String)
    (hs : s ≠ "remove") :
    List.Forall₂ (fun v w => v = Value.null → w = Value.null)
      (df.col c) ((highStep df c t s).1.col c) := by
  unfold highStep
  by_cases h1 : s = "cap"
  · rw [if_pos h1]
    dsimp only
    rw [col_mapCol_self]
    exact forall2_null_map _ _ rfl
  · rw [if_neg h1]
    by_cases h2 : s = "nan"
    · rw [if_pos h2]
      dsimp only
      rw [col_mapCol_self]
      exact forall2_null_map _ _ rfl
    · rw [if_neg h2, if_neg hs]
      exact forall2_null_refl _

theorem handleOutliers_forall2_null (df : DataFrame) (c : String)
    (lb uq : Option ℚ) (s : String) (hs : s ≠ "remove") :
    List.Forall₂ (fun v w => v = Value.null → w = Value.null)
      (df.col c) ((handleOutliers df c lb uq s).1.col c) := by
  unfold handleOutliers
  split
  · cases lb with
    | none =>
      cases uq with
      | none => exact forall2_null_refl _
      | some q =>
        dsimp only
        split
        · exact forall2_null_refl _
        · exact highStep_forall2_null df c _ s hs
    | some b =>
      cases uq with
      | none => exact lowStep_forall2_null df c b s hs
      | some q =>
        dsimp only
        split
        · exact lowStep_forall2_null df c b s hs
        · exact forall2_null_trans (lowStep_forall2_null df c b s hs)
            (highStep_forall2_null _ c _ s hs)
  · exact forall2_null_refl _

theorem lowStep_remove_keeps_null (df : DataFrame) (c : String) (b : ℚ)
    (r : Row) (hr : r ∈ df.rows) (hn : r c = Value.null) :
    r ∈ (lowStep df c b "remove").1.rows := by
  unfold lowStep
  rw [if_neg (by decide), if_neg (by decide), if_pos rfl]
  refine List.mem_filter.mpr ⟨hr, ?_⟩
  rw [hn]
  rfl

theorem highStep_remove_keeps_null (df : DataFrame) (c : String) (t : ℚ)
    (r : Row) (hr : r ∈ df.rows) (hn : r c = Value.null) :
    r ∈ (highStep df c t "remove").1.rows := by
  unfold highStep
  rw [if_neg (by decide), if_neg (by decide), if_pos rfl]
  refine List.mem_filter.mpr ⟨hr, ?_⟩
  rw [hn]
  rfl

theorem handleOutliers_remove_keeps_null (df : DataFrame) (c : String)
    (lb uq : Option ℚ) (r : Row) (hr : r ∈ df.rows) (hn : r c = Value.null) :
    r ∈ (handleOutliers df c lb uq "remove").1.rows := by
  unfold handleOutliers
  split
  · cases lb with
    | none =>
      cases uq with
      | none => exact hr
      | some q =>
        dsimp only
        split
        · exact hr
        · exact highStep_remove_keeps_null df c _ r hr hn
    | some b =>
      cases uq with
      | none => exact lowStep_remove_keeps_null df c b r hr hn
      | some q =>
        dsimp only
        split
        · exact lowStep_remove_keeps_null df c b r hr hn
        · exact highStep_remove_keeps_null _ c _ r
            (lowStep_remove_keeps_null df c b r hr hn) hn
  · exact hr

/-- C10: outlier handling never flags or touches a null cell: the comparison
masks are false on the null marker for every bound, with a non-removal
strategy every null position of the column stays null, with the removal
strategy every row whose cell is null survives, and a concrete loyalty run
(whose points column is clipped but never null-dropped) keeps a null points
cell in the cleaned output. -/
theorem c10_nulls_untouched :
    (∀ b : ℚ, Value.null.ltNum b = false ∧ Value.null.gtNum b = false) ∧
      (∀ (df : DataFrame) (c : String) (lb uq : Option ℚ) (s : String),
        s ≠ "remove" →
        List.Forall₂ (fun v w => v = Value.null → w = Value.null)
          (df.col c) ((handleOutliers df c lb uq s).1.col c)) ∧
      (∀ (df : DataFrame) (c : String) (lb uq : Option ℚ) (r : Row),
        r ∈ df.rows → r c = Value.null →
        r ∈ (handleOutliers df c lb uq "remove").1.rows) ∧
      (cleanLoyalty defaultEnv dfLoyNull).map
          (fun p => p.1.col "total_loyalty_points")
        = some [Value.num 0, Value.null] := by
  refine ⟨fun b => ⟨rfl, rfl⟩, ?_, ?_, by decide⟩
  · intro df c lb uq s hs
    exact handleOutliers_forall2_null df c lb uq s hs
  · intro df c lb uq r hr hn
    exact handleOutliers_remove_keeps_null df c lb uq r hr hn

/-- C10 witness: the theorem instantiated at the clip pass of the concrete
loyalty dataset with a null points cell, and at a concrete bound. -/
theorem c10_witness :
    List.Forall₂ (fun v w => v = Value.null → w = Value.null)
        (dfLoyNull.col "total_loyalty_points")
        ((handleOutliers dfLoyNull "total_loyalty_points"
          (some 0) none "cap").1.col "total_loyalty_points") ∧
      Value.null.ltNum 5 = false :=
  ⟨c10_nulls_untouched.2.1 dfLoyNull "total_loyalty_points" (some 0) none "cap"
      (by decide),
    (c10_nulls_untouched.1 5).1⟩

end DataClean
